import Mathlib

/-!
Verification development for the games-dataset dashboard script
(`streamlit_games_visualization.py`).

The script's data pipeline is embedded shallowly:

* CSV text is a `List Char`; `read_csv` is modelled by an explicit
  character-level parser with quoting (RFC-4180 style, matching the
  pandas defaults used by the script: comma separator, double-quote
  quoting, `\n` line terminator, blank lines skipped, empty fields read
  as missing values, fully numeric columns inferred as numeric, and
  duplicate header labels deduplicated with dotted numeric suffixes).
  Ragged rows with more fields than the header are a parse error, as in
  pandas' C tokenizer.
* `pd.to_numeric(col, errors='coerce')` is modelled by `parseNum`,
  a numeric-literal parser (optional sign, decimal digits, optional
  fractional part, optional exponent) that yields `none` on anything
  else; coercion maps unparseable cells to `Cell.null`.
* `.astype('Int64')` is modelled by a cast that fails on non-integral
  numeric values (pandas raises on unsafe float-to-Int64 casts) and is
  the identity otherwise.
* Numbers are exact rationals; the floats manipulated by the script
  serialize with a shortest-roundtrip decimal representation, which the
  exact decimal printer `ratToStr` models observationally.

All rational values are built through `mkRat` / integer arithmetic so
that concrete runs of the pipeline reduce under `decide`.
-/

/-- CSV text and cell contents are plain lists of characters. -/
abbrev Str := List Char

/-- Character from a code point; used instead of literals throughout. -/
def chOf (n : Nat) : Char := Char.ofNat n

/-- Horizontal tab. -/
def tabCh : Char := chOf 9

/-- Line feed, the line terminator written by `to_csv`. -/
def nlCh : Char := chOf 10

/-- Carriage return. -/
def crCh : Char := chOf 13

/-- Space. -/
def spaceCh : Char := chOf 32

/-- Double quote, the `read_csv` / `to_csv` quote character. -/
def quoteCh : Char := chOf 34

/-- Plus sign. -/
def plusCh : Char := chOf 43

/-- Comma, the field separator. -/
def commaCh : Char := chOf 44

/-- Dash / minus sign, also the dataset's null-placeholder token. -/
def dashCh : Char := chOf 45

/-- Decimal point. -/
def dotCh : Char := chOf 46

/-- Lower-case letter e (exponent marker). -/
def eCh : Char := chOf 101

/-- Upper-case letter E (exponent marker). -/
def bigECh : Char := chOf 69

/-- Whitespace recognised by header stripping and numeric parsing. -/
def isWS (c : Char) : Bool := c = spaceCh || c = tabCh || c = nlCh || c = crCh

/-- Strip leading and trailing whitespace (models Python `str.strip`). -/
def trimCh (cs : Str) : Str :=
  ((cs.dropWhile isWS).reverse.dropWhile isWS).reverse

/-- Decimal digit test. -/
def isDigitCh (c : Char) : Bool := 48 ≤ c.toNat && c.toNat ≤ 57

/-- Value of a digit character. -/
def digitVal (c : Char) : Nat := c.toNat - 48

/-- Digit character of a value below ten. -/
def digitCh (d : Nat) : Char := chOf (48 + d)

/-- Numeric value of a digit string, most significant digit first. -/
def digitsVal (ds : Str) : Nat := ds.foldl (fun a c => 10 * a + digitVal c) 0

/-- Fuelled decimal printer for naturals, most significant digit first. -/
def natDigitsAux : Nat → Nat → Str
  | 0, _ => []
  | fuel + 1, n =>
    if n < 10 then [digitCh n]
    else natDigitsAux fuel (n / 10) ++ [digitCh (n % 10)]

/-- Decimal digits of a natural number. -/
def natDigits (n : Nat) : Str := natDigitsAux (n + 1) n

/-- Exactly `k` decimal digits holding `n % 10 ^ k`, zero padded. -/
def natDigitsPad : Nat → Nat → Str
  | 0, _ => []
  | k + 1, n => natDigitsPad k (n / 10) ++ [digitCh (n % 10)]

/-! ### Numeric coercion: model of `pd.to_numeric(..., errors='coerce')`

A cell string parses when, after stripping surrounding whitespace, it is
an optionally signed decimal literal with an optional fractional part
and an optional exponent. Thousands separators (commas) and the bare
dash placeholder are not numeric literals and therefore fail to parse,
exactly as in the source's `errors='coerce'` pipeline. -/

/-- Characters that can occur in a numeric literal. -/
def isNumCh (c : Char) : Bool :=
  isDigitCh c || c = dotCh || c = dashCh || c = plusCh || c = eCh || c = bigECh

/-- Consume an optional leading sign. -/
def readSign : Str → Int × Str
  | [] => (1, [])
  | c :: cs =>
    if c = dashCh then (-1, cs)
    else if c = plusCh then (1, cs)
    else (1, c :: cs)

/-- Split off the maximal run of leading decimal digits. -/
def spanDigits (cs : Str) : Str × Str :=
  (cs.takeWhile isDigitCh, cs.dropWhile isDigitCh)

/-- Rational value of a parsed literal, built through `mkRat` only so
that concrete runs reduce in the kernel. -/
def numValOf (sgn : Int) (d1 d2 : Str) (es : Int) (d3 : Str) : Rat :=
  let m : Int := sgn * (digitsVal (d1 ++ d2) : Int)
  let e : Int := es * (digitsVal d3 : Int) - (d2.length : Int)
  if 0 ≤ e then mkRat (m * (10 : Int) ^ e.toNat) 1
  else mkRat m ((10 : Nat) ^ (-e).toNat)

/-- Core literal recogniser over a trimmed, alphabet-checked string. -/
def parseNumCore (cs : Str) : Option Rat :=
  let s1 := readSign cs
  let d1p := spanDigits s1.2
  let fr : Str × Str :=
    match d1p.2 with
    | c :: rest => if c = dotCh then spanDigits rest else ([], d1p.2)
    | [] => ([], [])
  if d1p.1 = [] ∧ fr.1 = [] then none
  else
    match fr.2 with
    | [] => some (numValOf s1.1 d1p.1 fr.1 1 [])
    | c :: rest =>
      if c = eCh || c = bigECh then
        let s2 := readSign rest
        let d3p := spanDigits s2.2
        if d3p.1 = [] ∨ ¬ d3p.2 = [] then none
        else some (numValOf s1.1 d1p.1 fr.1 s2.1 d3p.1)
      else none

/-- Numeric coercion of one cell string: `some` value or `none`,
the model of `pd.to_numeric` on a single element with coercion. -/
def parseNum (s : Str) : Option Rat :=
  let t := trimCh s
  if t.all isNumCh then parseNumCore t else none

/-! ### Decimal printing: model of the script's CSV serialization of
numeric values. Floats print with their shortest round-tripping decimal
representation; on the exact rationals of this model that is the exact
decimal expansion, which exists whenever the reduced denominator
divides a power of ten (true of every value `parseNum` produces). -/

/-- Some exponent `k ≤ d` with `d ∣ 10 ^ k`, if one exists. -/
def decExp (d : Nat) : Option Nat :=
  (List.range (d + 1)).find? (fun k => 10 ^ k % d = 0)

/-- Exact decimal rendering of a rational (see `decExp`; the fallback
branch is unreachable for values produced by the pipeline). -/
def ratToStr (q : Rat) : Str :=
  let sign : Str := if q.num < 0 then [dashCh] else []
  match decExp q.den with
  | some k =>
    let scaled : Nat := q.num.natAbs * (10 ^ k / q.den)
    if k = 0 then sign ++ natDigits scaled
    else sign ++ natDigits (scaled / 10 ^ k) ++ dotCh :: natDigitsPad k scaled
  | none => sign ++ natDigits q.num.natAbs

/-! ### CSV tokenizer: model of the `read_csv` / `to_csv` text layer

Comma separator, double-quote quoting with doubled-quote escapes,
newline record terminator. A field beginning with a quote is read in
quoted mode; an unterminated quote or text between a closing quote and
the next separator is a tokenizer error. -/

/-- Read the body of a quoted field (after the opening quote). Returns
the field text and the input after the closing quote. -/
def parseQuoted : Str → Option (Str × Str)
  | [] => none
  | c :: cs =>
    if c = quoteCh then
      match cs with
      | c2 :: cs2 =>
        if c2 = quoteCh then (parseQuoted cs2).map (fun p => (quoteCh :: p.1, p.2))
        else some ([], cs)
      | [] => some ([], [])
    else (parseQuoted cs).map (fun p => (c :: p.1, p.2))

/-- Read an unquoted field: everything up to a comma or newline. -/
def parseUnquoted : Str → Str × Str
  | [] => ([], [])
  | c :: cs =>
    if c = commaCh ∨ c = nlCh then ([], c :: cs)
    else
      let p := parseUnquoted cs
      (c :: p.1, p.2)

/-- Read one field, quoted or unquoted. -/
def parseField (cs : Str) : Option (Str × Str) :=
  match cs with
  | [] => some ([], [])
  | c :: cs2 =>
    if c = quoteCh then parseQuoted cs2
    else some (parseUnquoted (c :: cs2))

/-- Read one record: comma-separated fields terminated by a newline or
the end of input. Fuelled by the maximal number of fields. -/
def parseRecordF : Nat → Str → Option (List Str × Str)
  | 0, _ => none
  | fuel + 1, cs =>
    match parseField cs with
    | none => none
    | some (f, rest) =>
      match rest with
      | [] => some ([f], [])
      | c :: cs2 =>
        if c = nlCh then some ([f], cs2)
        else if c = commaCh then
          (parseRecordF fuel cs2).map (fun p => (f :: p.1, p.2))
        else none

/-- Read all records of a document. Fuelled by the number of records. -/
def parseDocF : Nat → Str → Option (List (List Str))
  | _, [] => some []
  | 0, _ :: _ => none
  | fuel + 1, c :: cs =>
    match parseRecordF ((c :: cs).length + 1) (c :: cs) with
    | none => none
    | some (r, rest) => (parseDocF fuel rest).map (fun d => r :: d)

/-- Tokenize a document and drop blank lines (`skip_blank_lines=True`). -/
def readRecords (cs : Str) : Option (List (List Str)) :=
  (parseDocF (cs.length + 1) cs).map (List.filter (fun r => r ≠ [[]]))

/-- Quote-minimal test used by the serializer. -/
def needsQuote (s : Str) : Bool :=
  s.any (fun c => c = commaCh || c = quoteCh || c = nlCh || c = crCh)

/-- Double every quote character. -/
def escQuotes : Str → Str
  | [] => []
  | c :: cs =>
    if c = quoteCh then quoteCh :: quoteCh :: escQuotes cs
    else c :: escQuotes cs

/-- Serialize one field, quoting when needed. -/
def renderField (s : Str) : Str :=
  if needsQuote s then quoteCh :: (escQuotes s ++ [quoteCh]) else s

/-- Serialize one record: fields joined by commas. -/
def renderRow : List Str → Str
  | [] => []
  | [f] => renderField f
  | f :: fs => renderField f ++ commaCh :: renderRow fs

/-- Serialize a document, one newline-terminated line per record. -/
def renderLines (rows : List (List Str)) : Str :=
  (rows.map (fun r => renderRow r ++ [nlCh])).flatten

/-! ### The tabular data model and `load_data` (source lines 20-33) -/

/-- One cell of a loaded frame: missing, text, or numeric. -/
inductive Cell where
  | null : Cell
  | str : Str → Cell
  | num : Rat → Cell
deriving DecidableEq

/-- A loaded frame: header labels and a row-major cell grid. -/
structure Table where
  header : List Str
  rows : List (List Cell)
deriving DecidableEq

deriving instance DecidableEq for Except

/-- Errors surfaced by the load step. -/
inductive LoadErr where
  | emptyData : LoadErr
  | tokenizeErr : LoadErr
  | intCastErr : LoadErr
  | unicodeErr : LoadErr
deriving DecidableEq

/-- Default missing-value markers recognised by `read_csv`. -/
def naStrings : List Str :=
  [[], "NA".data, "N/A".data, "NaN".data, "nan".data, "null".data,
    "NULL".data, "None".data, "n/a".data, "<NA>".data]

/-- Raw text of one field to a cell: missing markers become null. -/
def cellOfRaw (s : Str) : Cell := if s ∈ naStrings then Cell.null else Cell.str s

/-- True when a cell does not block numeric inference of its column. -/
def cellNumOk (c : Cell) : Bool :=
  match c with
  | Cell.null => true
  | Cell.str s => (parseNum s).isSome
  | Cell.num _ => true

/-- Apply column type inference to one cell. -/
def inferCell (numeric : Bool) (c : Cell) : Cell :=
  if numeric then
    match c with
    | Cell.str s =>
      match parseNum s with
      | some q => Cell.num q
      | none => Cell.null
    | c2 => c2
  else c

/-- Deduplicate one clashing header label with dotted counters. -/
def mangleAux (seen : List Str) (nm : Str) : Nat → Nat → Str
  | 0, _ => nm
  | fuel + 1, i =>
    let cand := nm ++ dotCh :: natDigits i
    if cand ∈ seen then mangleAux seen nm fuel (i + 1) else cand

/-- Deduplicate header labels left to right (pandas mangling). -/
def mangleGo (seen : List Str) : List Str → List Str
  | [] => []
  | nm :: rest =>
    let nm2 := if nm ∈ seen then mangleAux seen nm (seen.length + 1) 1 else nm
    nm2 :: mangleGo (nm2 :: seen) rest

/-- Header deduplication entry point. -/
def mangle (ns : List Str) : List Str := mangleGo [] ns

/-- Model of `pd.read_csv` on decoded text: tokenize, drop blank lines,
take the first record as header, error on rows wider than the header,
pad narrow rows with nulls, convert missing markers, and infer a column
as numeric when every non-null cell parses numerically. -/
def read_csv (cs : Str) : Except LoadErr Table :=
  match readRecords cs with
  | none => Except.error LoadErr.tokenizeErr
  | some [] => Except.error LoadErr.emptyData
  | some (h :: rs) =>
    let ncols := h.length
    if rs.any (fun r => ncols < r.length) then Except.error LoadErr.tokenizeErr
    else
      let rawRows := rs.map
        (fun r => r.map cellOfRaw ++ List.replicate (ncols - r.length) Cell.null)
      let numericCol : Nat → Bool :=
        fun j => rawRows.all (fun r => cellNumOk (r.getD j Cell.null))
      let rows := rawRows.map
        (fun r => (List.range ncols).map
          (fun j => inferCell (numericCol j) (r.getD j Cell.null)))
      Except.ok (Table.mk (mangle h) rows)

/-- The two numeric-declared column names of the script. -/
def RYname : Str := "Release Year".data

/-- Name of the rating column. -/
def URname : Str := "User Rating".data

/-- Header normalization: `df.rename(columns=lambda s: s.strip())`. -/
def stripHeader (t : Table) : Table := Table.mk (t.header.map trimCh) t.rows

/-- Index of the first column with the given label. -/
def colIdxAux (nm : Str) : List Str → Option Nat
  | [] => none
  | h :: hs => if h = nm then some 0 else (colIdxAux nm hs).map (· + 1)

/-- Index of a named column in a table. -/
def colIdx (t : Table) (nm : Str) : Option Nat := colIdxAux nm t.header

/-- Numeric coercion of one cell (`pd.to_numeric(..., errors='coerce')`). -/
def toNumericCell (c : Cell) : Cell :=
  match c with
  | Cell.null => Cell.null
  | Cell.num q => Cell.num q
  | Cell.str s =>
    match parseNum s with
    | some q => Cell.num q
    | none => Cell.null

/-- Rewrite one column of every row with a cell function. -/
def setCol (t : Table) (j : Nat) (f : Cell → Cell) : Table :=
  Table.mk t.header (t.rows.map (fun r => r.set j (f (r.getD j Cell.null))))

/-- Numeric coercion of a named column; absent columns are untouched
(the source guards each coercion with a membership test). -/
def to_numeric_col (t : Table) (nm : Str) : Table :=
  match colIdx t nm with
  | none => t
  | some j => setCol t j toNumericCell

/-- True when a cell survives an `astype('Int64')` cast. -/
def cellIntOk (c : Cell) : Bool :=
  match c with
  | Cell.num q => q.den = 1
  | _ => true

/-- Model of `.astype('Int64')` on a named column: values are preserved
but a non-integral numeric cell raises. -/
def astype_Int64 (t : Table) (nm : Str) : Except LoadErr Table :=
  match colIdx t nm with
  | none => Except.ok t
  | some j =>
    if t.rows.all (fun r => cellIntOk (r.getD j Cell.null)) then Except.ok t
    else Except.error LoadErr.intCastErr

/-- The script's `load_data` (source lines 20-33) on decoded text:
read the CSV, strip header whitespace, coerce `Release Year` to
nullable integers and `User Rating` to numbers. -/
def load_data (cs : Str) : Except LoadErr Table :=
  match read_csv cs with
  | Except.error e => Except.error e
  | Except.ok t0 =>
    let t1 := stripHeader t0
    let t2 := to_numeric_col t1 RYname
    match astype_Int64 t2 RYname with
    | Except.error e => Except.error e
    | Except.ok t3 => Except.ok (to_numeric_col t3 URname)

/-- Serialization of one cell for the CSV download (nulls print as the
empty string, the `na_rep` default). -/
def cellToStr (c : Cell) : Str :=
  match c with
  | Cell.null => []
  | Cell.str s => s
  | Cell.num q => ratToStr q

/-- Model of `df.to_csv(index=False)` (source line 209). -/
def to_csv (t : Table) : Str :=
  renderLines (t.header :: t.rows.map (fun r => r.map cellToStr))

/-! ### The sidebar filtering block `df_filtered` (source lines 92-103) -/

/-- Genre column label. -/
def GenreName : Str := "Genre".data

/-- Platform column label. -/
def PlatformName : Str := "Platform".data

/-- State of the sidebar filters. `genres` / `platforms` are `none`
when 'All' is selected (or the column is absent); `rating` is `none`
exactly when the rating column is absent (source lines 79-84). -/
structure Filters where
  y0 : Int
  y1 : Int
  genres : Option (List Str)
  platforms : Option (List Str)
  rating : Option (Rat × Rat)

/-- Range mask on a cell: a null cell fails the mask, as a pandas
nullable comparison propagates NA and indexing treats NA as False. -/
def cellInRange (c : Cell) (lo hi : Rat) : Bool :=
  match c with
  | Cell.num q => lo ≤ q && q ≤ hi
  | _ => false

/-- Membership mask on a cell (`Series.isin`): nulls fail. -/
def cellIsin (c : Cell) (sel : List Str) : Bool :=
  match c with
  | Cell.str s => sel.contains s
  | _ => false

/-- Conjunction of the four masks of the filtering block. -/
def rowKeep (t : Table) (f : Filters) (jy : Nat) (r : List Cell) : Bool :=
  cellInRange (r.getD jy Cell.null) (mkRat f.y0 1) (mkRat f.y1 1) &&
  (match f.genres, colIdx t GenreName with
    | some sel, some j => cellIsin (r.getD j Cell.null) sel
    | _, _ => true) &&
  (match f.platforms, colIdx t PlatformName with
    | some sel, some j => cellIsin (r.getD j Cell.null) sel
    | _, _ => true) &&
  (match f.rating, colIdx t URname with
    | some rr, some j => cellInRange (r.getD j Cell.null) rr.1 rr.2
    | _, _ => true)

/-- The filtering block: defined only when `Release Year` exists, since
the app stops at source lines 54-56 otherwise. -/
def df_filtered (t : Table) (f : Filters) : Option Table :=
  (colIdx t RYname).map
    (fun jy => Table.mk t.header (t.rows.filter (rowKeep t f jy)))

/-! ### Byte-level load (source lines 21-25)

`pd.read_csv` decodes the input with its single default encoding,
UTF-8, and raises on undecodable bytes; the source supplies no
fallback encodings. -/

/-- Strict UTF-8 decoding; `none` on any invalid sequence. -/
def decodeUtf8 : List Nat → Option Str
  | [] => some []
  | b :: bs =>
    if b < 0x80 then (decodeUtf8 bs).map (fun cs => chOf b :: cs)
    else if b < 0xC2 then none
    else if b < 0xE0 then
      match bs with
      | b1 :: bs1 =>
        if 0x80 ≤ b1 ∧ b1 < 0xC0 then
          (decodeUtf8 bs1).map (fun cs => chOf ((b - 0xC0) * 0x40 + (b1 - 0x80)) :: cs)
        else none
      | [] => none
    else if b < 0xF0 then
      match bs with
      | b1 :: b2 :: bs2 =>
        if (0x80 ≤ b1 ∧ b1 < 0xC0) ∧ (0x80 ≤ b2 ∧ b2 < 0xC0) then
          let cp := (b - 0xE0) * 0x1000 + (b1 - 0x80) * 0x40 + (b2 - 0x80)
          if 0x800 ≤ cp ∧ (cp < 0xD800 ∨ 0xE000 ≤ cp) then
            (decodeUtf8 bs2).map (fun cs => chOf cp :: cs)
          else none
        else none
      | _ => none
    else if b < 0xF5 then
      match bs with
      | b1 :: b2 :: b3 :: bs3 =>
        if (0x80 ≤ b1 ∧ b1 < 0xC0) ∧ (0x80 ≤ b2 ∧ b2 < 0xC0) ∧
            (0x80 ≤ b3 ∧ b3 < 0xC0) then
          let cp := (b - 0xF0) * 0x40000 + (b1 - 0x80) * 0x1000 +
            (b2 - 0x80) * 0x40 + (b3 - 0x80)
          if 0x10000 ≤ cp ∧ cp ≤ 0x10FFFF then
            (decodeUtf8 bs3).map (fun cs => chOf cp :: cs)
          else none
        else none
      | _ => none
    else none

/-- Latin-1 decoding: every byte is a code point. Modelled from the
spec: section 4.1 fixes no candidate list beyond an in-order probe
with at least one permissive single-byte fallback codepage; latin-1
stands in for that fallback. -/
def decodeLatin1 (bs : List Nat) : Str := bs.map chOf

/-- The source's load step on raw bytes: a single strict UTF-8 decode
followed by `load_data`; no fallback encodings are attempted. -/
def load_data_bytes (bs : List Nat) : Except LoadErr Table :=
  match decodeUtf8 bs with
  | none => Except.error LoadErr.unicodeErr
  | some cs => load_data cs

/-- Modelled from the spec: the candidate encoding preference list of
spec sections 4.1 and 6 (UTF-8 first, then the fallback codepage); the
repository variant implementing the multi-encoding probe is not under
src/. -/
def specEncodings : List (List Nat → Option Str) :=
  [decodeUtf8, fun bs => some (decodeLatin1 bs)]

/-- Modelled from the spec: try each candidate encoding in order until
one decodes, then load; fail with UnreadableEncoding (here
`LoadErr.unicodeErr`) if none does, producing no partial result. -/
def specTryLoad (bs : List Nat) : Except LoadErr Table :=
  match (specEncodings.filterMap (fun d => d bs)).head? with
  | some cs => load_data cs
  | none => Except.error LoadErr.unicodeErr

/-! ### Neighbor Similarity Finder

Modelled from the spec (section 4.2): the repository variant that
implements the "similar games" lookup is not under src/, so the finder
is built from the spec's algorithm: one-hot dimensions over the
distinct category and subcategory values (nulls as "Unknown"),
a z-normalized score dimension with epsilon 1e-9 and mean imputation,
Euclidean distance to the anchor, ascending stable order, first k. -/

/-- A record of the filtered set, as the spec's data model defines it. -/
structure Record where
  name : Str
  category : Option Str
  subcategory : Option Str
  year : Option Int
  score : Option Rat
deriving DecidableEq

/-- Failure modes of the finder (spec section 4.2). -/
inductive KnnErr where
  | anchorNotFound : KnnErr
  | insufficientData : KnnErr
deriving DecidableEq

/-- Placeholder category for records with a null category value. -/
def unknownCat : Str := "Unknown".data

/-- Category value used for one-hot dimensions. -/
def catOf (r : Record) : Str := r.category.getD unknownCat

/-- Subcategory value used for one-hot dimensions. -/
def subcatOf (r : Record) : Str := r.subcategory.getD unknownCat

/-- One-hot encoding of a value over the distinct-value dimension list. -/
def oneHot (vals : List Str) (v : Str) : List Rat :=
  vals.map (fun w => if w = v then 1 else 0)

/-- Number of non-null scores in the filtered set. -/
def scoreCount (rs : List Record) : Nat := (rs.filterMap Record.score).length

/-- Sum of the non-null scores. -/
def scoreSum (rs : List Record) : Rat := (rs.filterMap Record.score).foldl (· + ·) 0

/-- Mean of the non-null scores (0 when there are none). -/
def scoreMean (rs : List Record) : Rat :=
  if scoreCount rs = 0 then 0 else scoreSum rs / (scoreCount rs : Rat)

/-- Population variance of the non-null scores (0 when there are none). -/
def scoreVar (rs : List Record) : Rat :=
  if scoreCount rs = 0 then 0
  else ((rs.filterMap Record.score).map (fun s => (s - scoreMean rs) ^ 2)).foldl
    (· + ·) 0 / (scoreCount rs : Rat)

/-- The epsilon of the z-normalization (spec: 1e-9). -/
def epsKnn : Rat := mkRat 1 1000000000

/-- One-hot part of a record's feature vector. -/
def featOneHot (cats subs : List Str) (r : Record) : List Rat :=
  oneHot cats (catOf r) ++ oneHot subs (subcatOf r)

/-- Numerator of the z-normalized score dimension: null scores are
imputed to the mean, so their dimension is zero. -/
def scoreDimNum (rs : List Record) (r : Record) : Rat :=
  r.score.getD (scoreMean rs) - scoreMean rs

/-- Sum of squared coordinate differences. -/
def sqDiffSum (xs ys : List Rat) : Rat :=
  (List.zipWith (fun x y => (x - y) ^ 2) xs ys).foldl (· + ·) 0

/-- An element `a + b * sqrt v` of the quadratic extension in which the
scaled squared distances live (`v` is the score variance). -/
structure SqrtExt where
  a : Rat
  b : Rat
deriving DecidableEq

/-- Decide `x ≤ y` in the extension, assuming `0 ≤ v`. -/
def sqrtExtLe (v : Rat) (x y : SqrtExt) : Bool :=
  let p := y.a - x.a
  let q := x.b - y.b
  if q = 0 then 0 ≤ p
  else if 0 < q then 0 ≤ p && q ^ 2 * v ≤ p ^ 2
  else 0 ≤ p || p ^ 2 ≤ q ^ 2 * v

/-- Sort key of a candidate: the squared Euclidean distance to the
anchor, scaled by the positive constant `(sigma + eps) ^ 2` so that it
is exactly representable; scaling by a positive constant preserves the
distance order. With `A` the one-hot squared difference and `ds` the
score-numerator difference, the squared distance times
`v + 2*eps*sigma + eps^2` equals `A*(v + eps^2) + ds^2 + A*2*eps*sigma`. -/
def distKey (rs : List Record) (cats subs : List Str) (x y : Record) : SqrtExt :=
  let A := sqDiffSum (featOneHot cats subs x) (featOneHot cats subs y)
  let ds := scoreDimNum rs x - scoreDimNum rs y
  SqrtExt.mk (A * (scoreVar rs + epsKnn ^ 2) + ds ^ 2) (A * (2 * epsKnn))

/-- The Neighbor Similarity Finder (spec section 4.2): validate the
anchor and the set size, build feature dimensions from the filtered
set, rank every other record by distance to the anchor with a stable
ascending sort, and return the first k with their scaled squared
distances. -/
def knnQuery (rs : List Record) (anchor : Str) (k : Nat) :
    Except KnnErr (List (Record × SqrtExt)) :=
  if ¬ anchor ∈ rs.map Record.name then Except.error KnnErr.anchorNotFound
  else if rs.length < 2 then Except.error KnnErr.insufficientData
  else
    match (rs.filter (fun r => r.name = anchor)).head? with
    | none => Except.error KnnErr.anchorNotFound
    | some a =>
      let cats := (rs.map catOf).dedup
      let subs := (rs.map subcatOf).dedup
      let others := rs.filter (fun r => ¬ r.name = anchor)
      let keyed := others.map (fun r => (r, distKey rs cats subs a r))
      Except.ok
        ((List.insertionSort (fun x y => sqrtExtLe (scoreVar rs) x.2 y.2 = true)
          keyed).take k)

/-- A cell as the cleaning pipeline leaves it: null, a string that is not
a missing-value marker, or a number with a finite decimal expansion. -/
def cellClean : Cell → Bool
  | Cell.null => true
  | Cell.str s => decide (¬ s ∈ naStrings)
  | Cell.num q => (decExp q.den).isSome

theorem digitVal_digitCh {d : Nat} (h : d < 10) : digitVal (digitCh d) = d := by
  interval_cases d <;> decide

theorem isDigitCh_digitCh {d : Nat} (h : d < 10) : isDigitCh (digitCh d) = true := by
  interval_cases d <;> decide

theorem digitsVal_foldl (a : Nat) (es : Str) :
    List.foldl (fun x c => 10 * x + digitVal c) a es
      = a * 10 ^ es.length + digitsVal es := by
  induction es generalizing a with
  | nil => simp [digitsVal]
  | cons c cs ih =>
    have hc : digitsVal (c :: cs) = digitVal c * 10 ^ cs.length + digitsVal cs := by
      simpa only [digitsVal, List.foldl_cons, Nat.mul_zero, Nat.zero_add] using
        ih (digitVal c)
    simp only [List.foldl_cons, ih (10 * a + digitVal c), hc, List.length_cons,
      pow_succ]
    ring

theorem digitsVal_append (ds es : Str) :
    digitsVal (ds ++ es) = digitsVal ds * 10 ^ es.length + digitsVal es := by
  simpa only [digitsVal, List.foldl_append] using
    digitsVal_foldl (digitsVal ds) es

theorem digitsVal_snoc (ds : Str) (c : Char) :
    digitsVal (ds ++ [c]) = 10 * digitsVal ds + digitVal c := by
  rw [digitsVal_append]
  simp [digitsVal]
  ring

theorem natDigitsAux_spec :
    ∀ fuel n, n < fuel →
      digitsVal (natDigitsAux fuel n) = n ∧
      (natDigitsAux fuel n).all isDigitCh = true ∧
      natDigitsAux fuel n ≠ [] := by
  intro fuel
  induction fuel with
  | zero => intro n h; omega
  | succ fuel ih =>
    intro n h
    by_cases h10 : n < 10
    · simp only [natDigitsAux, if_pos h10]
      refine ⟨?_, ?_, by simp⟩
      · simp [digitsVal, digitVal_digitCh h10]
      · simp [List.all_cons, isDigitCh_digitCh h10]
    · simp only [natDigitsAux, if_neg h10]
      have hlt : n / 10 < fuel := by
        have := Nat.div_lt_self (by omega : 0 < n) (by omega : 1 < 10)
        omega
      obtain ⟨hv, hd, hne⟩ := ih (n / 10) hlt
      refine ⟨?_, ?_, by simp⟩
      · rw [digitsVal_snoc, hv, digitVal_digitCh (Nat.mod_lt n (by omega))]
        omega
      · simp only [List.all_append, List.all_cons, List.all_nil, Bool.and_eq_true] at *
        exact ⟨hd, isDigitCh_digitCh (Nat.mod_lt n (by omega)), trivial⟩

theorem digitsVal_natDigits (n : Nat) : digitsVal (natDigits n) = n :=
  (natDigitsAux_spec (n + 1) n (Nat.lt_succ_self n)).1

theorem natDigits_all_digits (n : Nat) : (natDigits n).all isDigitCh = true :=
  (natDigitsAux_spec (n + 1) n (Nat.lt_succ_self n)).2.1

theorem natDigits_ne_nil (n : Nat) : natDigits n ≠ [] :=
  (natDigitsAux_spec (n + 1) n (Nat.lt_succ_self n)).2.2

theorem mod_ten_pow_succ (n k : Nat) :
    n % 10 ^ (k + 1) = 10 * (n / 10 % 10 ^ k) + n % 10 := by
  have h1 : (10 : Nat) ^ (k + 1) = 10 * 10 ^ k := by ring
  have h2 : 10 * (n / 10) % (10 * 10 ^ k) = 10 * (n / 10 % 10 ^ k) :=
    Nat.mul_mod_mul_left 10 (n / 10) (10 ^ k)
  have h3 : 0 < (10 : Nat) ^ k := pow_pos (by norm_num) k
  have h4 : n / 10 % 10 ^ k < 10 ^ k := Nat.mod_lt _ h3
  have h5 : 10 * (n / 10) + n % 10 = n := Nat.div_add_mod n 10
  have h6 : n % 10 < 10 := Nat.mod_lt _ (by norm_num)
  calc n % 10 ^ (k + 1)
      = (10 * (n / 10) + n % 10) % (10 * 10 ^ k) := by rw [h1, h5]
    _ = (10 * (n / 10) % (10 * 10 ^ k) + n % 10 % (10 * 10 ^ k)) % (10 * 10 ^ k) := by
        rw [← Nat.add_mod]
    _ = (10 * (n / 10 % 10 ^ k) + n % 10) % (10 * 10 ^ k) := by
        rw [h2, Nat.mod_eq_of_lt (show n % 10 < 10 * 10 ^ k by omega)]
    _ = 10 * (n / 10 % 10 ^ k) + n % 10 := Nat.mod_eq_of_lt (by omega)

theorem natDigitsPad_spec (k : Nat) :
    ∀ n, digitsVal (natDigitsPad k n) = n % 10 ^ k ∧
      (natDigitsPad k n).all isDigitCh = true ∧
      (natDigitsPad k n).length = k := by
  induction k with
  | zero => intro n; simp [natDigitsPad, digitsVal, Nat.mod_one]
  | succ k ih =>
    intro n
    obtain ⟨hv, hd, hl⟩ := ih (n / 10)
    refine ⟨?_, ?_, ?_⟩
    · rw [natDigitsPad, digitsVal_snoc, hv,
        digitVal_digitCh (Nat.mod_lt n (by omega)), mod_ten_pow_succ]
    · simp only [natDigitsPad, List.all_append, List.all_cons, List.all_nil,
        Bool.and_eq_true] at *
      exact ⟨hd, isDigitCh_digitCh (Nat.mod_lt n (by omega)), trivial⟩
    · simp [natDigitsPad, hl]

/-! ### Character and scanning lemmas -/

theorem isDigitCh_toNat {c : Char} (h : isDigitCh c = true) :
    48 ≤ c.toNat ∧ c.toNat ≤ 57 := by
  simpa [isDigitCh, Bool.and_eq_true, decide_eq_true_eq] using h

theorem isWS_false {c : Char} (h32 : ¬ c.toNat = 32) (h9 : ¬ c.toNat = 9)
    (h10 : ¬ c.toNat = 10) (h13 : ¬ c.toNat = 13) : isWS c = false := by
  simp only [isWS, Bool.or_eq_false_iff, decide_eq_false_iff_not]
  exact ⟨⟨⟨fun e => h32 (by rw [e]; decide), fun e => h9 (by rw [e]; decide)⟩,
    fun e => h10 (by rw [e]; decide)⟩, fun e => h13 (by rw [e]; decide)⟩

theorem isWS_of_digit {c : Char} (h : isDigitCh c = true) : isWS c = false := by
  obtain ⟨h1, h2⟩ := isDigitCh_toNat h
  exact isWS_false (by omega) (by omega) (by omega) (by omega)

theorem isNumCh_of_digit {c : Char} (h : isDigitCh c = true) : isNumCh c = true := by
  simp [isNumCh, h]

theorem isDigitCh_dotCh : isDigitCh dotCh = false := by decide

theorem dropWhile_eq_self_of_none {p : Char → Bool} {cs : Str}
    (h : ∀ c ∈ cs, p c = false) : cs.dropWhile p = cs := by
  cases cs with
  | nil => rfl
  | cons c cs =>
    rw [List.dropWhile_cons, h c (List.mem_cons_self c cs)]
    simp

theorem trimCh_eq_self {cs : Str} (h : ∀ c ∈ cs, isWS c = false) : trimCh cs = cs := by
  unfold trimCh
  rw [dropWhile_eq_self_of_none h,
    dropWhile_eq_self_of_none (fun c hc => h c (List.mem_reverse.mp hc)),
    List.reverse_reverse]

theorem takeWhile_digits_append {ds rest : Str} (hd : ds.all isDigitCh = true)
    (hr : ∀ c cs2, rest = c :: cs2 → isDigitCh c = false) :
    (ds ++ rest).takeWhile isDigitCh = ds := by
  induction ds with
  | nil =>
    cases rest with
    | nil => rfl
    | cons c cs2 => simp [List.takeWhile_cons, hr c cs2 rfl]
  | cons d ds ih =>
    simp only [List.all_cons, Bool.and_eq_true] at hd
    simp [List.takeWhile_cons, hd.1, ih hd.2]

theorem dropWhile_digits_append {ds rest : Str} (hd : ds.all isDigitCh = true)
    (hr : ∀ c cs2, rest = c :: cs2 → isDigitCh c = false) :
    (ds ++ rest).dropWhile isDigitCh = rest := by
  induction ds with
  | nil =>
    cases rest with
    | nil => rfl
    | cons c cs2 => simp [List.dropWhile_cons, hr c cs2 rfl]
  | cons d ds ih =>
    simp only [List.all_cons, Bool.and_eq_true] at hd
    simp [List.dropWhile_cons, hd.1, ih hd.2]

theorem spanDigits_append {ds rest : Str} (hd : ds.all isDigitCh = true)
    (hr : ∀ c cs2, rest = c :: cs2 → isDigitCh c = false) :
    spanDigits (ds ++ rest) = (ds, rest) := by
  unfold spanDigits
  rw [takeWhile_digits_append hd hr, dropWhile_digits_append hd hr]

theorem readSign_dash (cs : Str) : readSign (dashCh :: cs) = (-1, cs) := by
  simp [readSign]

theorem readSign_nosign {c : Char} {cs : Str} (h1 : ¬ c.toNat = 45)
    (h2 : ¬ c.toNat = 43) : readSign (c :: cs) = (1, c :: cs) := by
  simp only [readSign]
  rw [if_neg (fun e => h1 (by rw [e]; decide)),
    if_neg (fun e => h2 (by rw [e]; decide))]

theorem readSign_digit {c : Char} {cs : Str} (h : isDigitCh c = true) :
    readSign (c :: cs) = (1, c :: cs) := by
  obtain ⟨h1, h2⟩ := isDigitCh_toNat h
  exact readSign_nosign (by omega) (by omega)

/-! ### Shape lemmas for the numeric literal recogniser -/

theorem spanDigits_all {ds : Str} (hd : ds.all isDigitCh = true) :
    spanDigits ds = (ds, []) := by
  have h := @spanDigits_append ds [] hd (fun c cs2 hh => by cases hh)
  simpa using h

theorem parseNumCore_int {sgn : Int} {inp d1 : Str}
    (hsgn : readSign inp = (sgn, d1))
    (hd1 : d1.all isDigitCh = true) (hd1ne : d1 ≠ []) :
    parseNumCore inp = some (numValOf sgn d1 [] 1 []) := by
  simp only [parseNumCore, hsgn, spanDigits_all hd1]
  rw [if_neg (fun hand => hd1ne hand.1)]

theorem parseNumCore_dec {sgn : Int} {inp d1 d2 : Str}
    (hsgn : readSign inp = (sgn, d1 ++ dotCh :: d2))
    (hd1 : d1.all isDigitCh = true) (hd1ne : d1 ≠ [])
    (hd2 : d2.all isDigitCh = true) :
    parseNumCore inp = some (numValOf sgn d1 d2 1 []) := by
  have hrest : ∀ c cs2, dotCh :: d2 = c :: cs2 → isDigitCh c = false := by
    intro c cs2 hh
    injection hh with hh1 _
    rw [← hh1]
    exact isDigitCh_dotCh
  simp only [parseNumCore, hsgn, spanDigits_append hd1 hrest, spanDigits_all hd2,
    if_true]
  rw [if_neg (fun hand => hd1ne hand.1)]

theorem numValOf_int (sgn : Int) (d1 : Str) :
    numValOf sgn d1 [] 1 [] = mkRat (sgn * (digitsVal d1 : Int)) 1 := by
  simp [numValOf, digitsVal]

theorem numValOf_dec {sgn : Int} {d1 d2 : Str} (h : d2 ≠ []) :
    numValOf sgn d1 d2 1 [] =
      mkRat (sgn * (digitsVal (d1 ++ d2) : Int)) (10 ^ d2.length) := by
  have hl : 0 < d2.length := List.length_pos.mpr h
  simp only [numValOf, digitsVal, List.foldl_nil, Nat.cast_zero, mul_zero, one_mul,
    zero_sub]
  rw [if_neg (by omega)]
  have ht : (- -(d2.length : Int)).toNat = d2.length := by omega
  rw [ht]

/-! ### Existence of a decimal exponent -/

theorem decExp_mod {d k : Nat} (h : decExp d = some k) : 10 ^ k % d = 0 := by
  have hp := List.find?_some h
  simpa using hp

theorem decExp_ne_none_of_dvd {d t : Nat} (hd : 0 < d) (hdvd : d ∣ 10 ^ t) :
    decExp d ≠ none := by
  have h10 : (10 : Nat) ^ t = 2 ^ t * 5 ^ t := by
    rw [show (10 : Nat) = 2 * 5 from rfl, mul_pow]
  rw [h10] at hdvd
  obtain ⟨y, z, hy, hz, hyz⟩ := Nat.dvd_mul.mp hdvd
  obtain ⟨a, _, rfl⟩ := (Nat.dvd_prime_pow Nat.prime_two).mp hy
  obtain ⟨b, _, rfl⟩ := (Nat.dvd_prime_pow Nat.prime_five).mp hz
  have ha : a ≤ d := by
    have h1 : 2 ^ a ≤ d := Nat.le_of_dvd hd (hyz ▸ Dvd.intro _ rfl)
    have h2 := Nat.lt_two_pow a
    omega
  have hb : b ≤ d := by
    have h1 : 5 ^ b ≤ d := Nat.le_of_dvd hd (hyz ▸ Dvd.intro_left _ rfl)
    have h2 := Nat.lt_pow_self (show 1 < 5 by norm_num) b
    omega
  have hmem : max a b ∈ List.range (d + 1) := List.mem_range.mpr (by omega)
  have hdvd2 : d ∣ 10 ^ max a b := by
    rw [show (10 : Nat) = 2 * 5 from rfl, mul_pow, ← hyz]
    exact mul_dvd_mul (pow_dvd_pow 2 (le_max_left a b)) (pow_dvd_pow 5 (le_max_right a b))
  intro hnone
  have := (List.find?_eq_none.mp hnone) (max a b) hmem
  simp only [decide_eq_true_eq] at this
  exact this (Nat.mod_eq_zero_of_dvd hdvd2)

/-! ### Round trip of the decimal printer through the numeric parser -/

theorem natDigits_mem_digit {n : Nat} {c : Char} (h : c ∈ natDigits n) :
    isDigitCh c = true :=
  List.all_eq_true.mp (natDigits_all_digits n) c h

theorem pad_mem_digit {k n : Nat} {c : Char} (h : c ∈ natDigitsPad k n) :
    isDigitCh c = true :=
  List.all_eq_true.mp (natDigitsPad_spec k n).2.1 c h

theorem mkRat_scaled_eq (q : Rat) (k : Nat) (hdvd : q.den ∣ 10 ^ k) {sgn : Int}
    {n : Nat} (hsgn : sgn * (n : Int) = q.num) :
    mkRat (sgn * ((n * (10 ^ k / q.den) : Nat) : Int)) (10 ^ k) = q := by
  have hc : ((10 ^ k / q.den : Nat) : ℚ) * (q.den : ℚ) = ((10 ^ k : Nat) : ℚ) := by
    exact_mod_cast congrArg (fun x : Nat => (x : ℚ)) (Nat.div_mul_cancel hdvd)
  have h10 : ((10 ^ k : Nat) : ℚ) ≠ 0 := by positivity
  have hdQ : ((q.den : ℚ)) ≠ 0 := by
    have := q.den_pos
    positivity
  rw [Rat.mkRat_eq_div, div_eq_iff (by exact_mod_cast h10)]
  have hsgnQ : ((sgn : ℚ)) * ((n : ℚ)) = ((q.num : ℚ)) := by
    exact_mod_cast congrArg (fun x : Int => (x : ℚ)) hsgn
  have hq : (q.num : ℚ) = q * (q.den : ℚ) := (div_eq_iff hdQ).mp (Rat.num_div_den q)
  rw [Int.cast_mul, Int.cast_natCast, Nat.cast_mul]
  calc (sgn : ℚ) * ((n : ℚ) * ((10 ^ k / q.den : Nat) : ℚ))
      = ((sgn : ℚ) * (n : ℚ)) * ((10 ^ k / q.den : Nat) : ℚ) := by ring
    _ = (q.num : ℚ) * ((10 ^ k / q.den : Nat) : ℚ) := by rw [hsgnQ]
    _ = q * ((q.den : ℚ) * ((10 ^ k / q.den : Nat) : ℚ)) := by rw [hq]; ring
    _ = q * ((10 ^ k : Nat) : ℚ) := by rw [mul_comm ((q.den : ℚ)) _, hc]

theorem parseNum_ratToStr (q : Rat) (h : decExp q.den ≠ none) :
    parseNum (ratToStr q) = some q := by
  obtain ⟨k, hk⟩ : ∃ k, decExp q.den = some k := by
    cases hd : decExp q.den with
    | none => exact absurd hd h
    | some k => exact ⟨k, rfl⟩
  have hdvd : q.den ∣ 10 ^ k := Nat.dvd_of_mod_eq_zero (decExp_mod hk)
  have hdpos : 0 < q.den := q.den_pos
  by_cases hk0 : k = 0
  · subst hk0
    have hden1 : q.den = 1 := Nat.dvd_one.mp (by simpa using hdvd)
    have hne := natDigits_ne_nil q.num.natAbs
    obtain ⟨d, ds, hD⟩ : ∃ d ds, natDigits q.num.natAbs = d :: ds := by
      cases hE : natDigits q.num.natAbs with
      | nil => exact absurd hE hne
      | cons d ds => exact ⟨d, ds, rfl⟩
    rcases lt_or_le q.num 0 with hneg | hpos
    · have hout : ratToStr q = dashCh :: natDigits q.num.natAbs := by
        simp only [ratToStr, hk]
        rw [hden1, if_pos hneg]
        norm_num
      have hmem : ∀ c ∈ dashCh :: natDigits q.num.natAbs,
          isWS c = false ∧ isNumCh c = true := by
        intro c hc
        rcases List.mem_cons.mp hc with rfl | hc2
        · exact ⟨by decide, by decide⟩
        · exact ⟨isWS_of_digit (natDigits_mem_digit hc2),
            isNumCh_of_digit (natDigits_mem_digit hc2)⟩
      have htrim : trimCh (dashCh :: natDigits q.num.natAbs)
          = dashCh :: natDigits q.num.natAbs :=
        trimCh_eq_self (fun c hc => (hmem c hc).1)
      have hnum : (dashCh :: natDigits q.num.natAbs).all isNumCh = true :=
        List.all_eq_true.mpr (fun c hc => (hmem c hc).2)
      rw [hout]
      simp only [parseNum, htrim, hnum]
      rw [if_true,
        parseNumCore_int (readSign_dash (natDigits q.num.natAbs))
          (natDigits_all_digits _) hne,
        numValOf_int, digitsVal_natDigits]
      have hm : (-1 : Int) * (q.num.natAbs : Int) = q.num := by omega
      rw [hm]
      conv_rhs => rw [← Rat.mkRat_self q, hden1]
    · have hout : ratToStr q = natDigits q.num.natAbs := by
        simp only [ratToStr, hk]
        rw [hden1, if_neg (not_lt.mpr hpos)]
        norm_num
      have htrim : trimCh (natDigits q.num.natAbs) = natDigits q.num.natAbs :=
        trimCh_eq_self (fun c hc => isWS_of_digit (natDigits_mem_digit hc))
      have hnum : (natDigits q.num.natAbs).all isNumCh = true :=
        List.all_eq_true.mpr (fun c hc => isNumCh_of_digit (natDigits_mem_digit hc))
      have hsgn : readSign (natDigits q.num.natAbs) = (1, natDigits q.num.natAbs) := by
        rw [hD]
        exact readSign_digit (natDigits_mem_digit (hD ▸ List.mem_cons_self d ds))
      rw [hout]
      simp only [parseNum, htrim, hnum]
      rw [if_true, parseNumCore_int hsgn (natDigits_all_digits _) hne,
        numValOf_int, digitsVal_natDigits, one_mul, Int.natAbs_of_nonneg hpos]
      conv_rhs => rw [← Rat.mkRat_self q, hden1]
  · set sc := q.num.natAbs * (10 ^ k / q.den) with hsc
    obtain ⟨hpadv, hpadd, hpadl⟩ := natDigitsPad_spec k sc
    have hpadne : natDigitsPad k sc ≠ [] := by
      intro hE
      rw [hE] at hpadl
      exact hk0 (by simpa using hpadl.symm)
    have hd12 : digitsVal (natDigits (sc / 10 ^ k) ++ natDigitsPad k sc) = sc := by
      rw [digitsVal_append, digitsVal_natDigits, hpadv, hpadl]
      conv_lhs => rw [Nat.mul_comm]
      exact Nat.div_add_mod sc (10 ^ k)
    have hne := natDigits_ne_nil (sc / 10 ^ k)
    obtain ⟨d, ds, hD⟩ : ∃ d ds, natDigits (sc / 10 ^ k) = d :: ds := by
      cases hE : natDigits (sc / 10 ^ k) with
      | nil => exact absurd hE hne
      | cons d ds => exact ⟨d, ds, rfl⟩
    have hmem : ∀ c ∈ natDigits (sc / 10 ^ k) ++ dotCh :: natDigitsPad k sc,
        isWS c = false ∧ isNumCh c = true := by
      intro c hc
      rcases List.mem_append.mp hc with h1 | h2
      · exact ⟨isWS_of_digit (natDigits_mem_digit h1),
          isNumCh_of_digit (natDigits_mem_digit h1)⟩
      · rcases List.mem_cons.mp h2 with rfl | h3
        · exact ⟨by decide, by decide⟩
        · exact ⟨isWS_of_digit (pad_mem_digit h3), isNumCh_of_digit (pad_mem_digit h3)⟩
    rcases lt_or_le q.num 0 with hneg | hpos
    · have hout : ratToStr q =
          dashCh :: (natDigits (sc / 10 ^ k) ++ dotCh :: natDigitsPad k sc) := by
        simp only [ratToStr, hk]
        rw [if_pos hneg, if_neg hk0]
        simp
      have hmem2 : ∀ c ∈ dashCh :: (natDigits (sc / 10 ^ k) ++ dotCh :: natDigitsPad k sc),
          isWS c = false ∧ isNumCh c = true := by
        intro c hc
        rcases List.mem_cons.mp hc with rfl | hc2
        · exact ⟨by decide, by decide⟩
        · exact hmem c hc2
      have htrim := trimCh_eq_self (fun c hc => (hmem2 c hc).1)
      have hnum := List.all_eq_true.mpr (fun c hc => (hmem2 c hc).2)
      rw [hout]
      simp only [parseNum, htrim, hnum]
      rw [if_true,
        parseNumCore_dec (readSign_dash _) (natDigits_all_digits _) hne hpadd,
        numValOf_dec hpadne, hd12, hpadl]
      congr 1
      rw [hsc]
      exact mkRat_scaled_eq q k hdvd (by omega)
    · have hout : ratToStr q =
          natDigits (sc / 10 ^ k) ++ dotCh :: natDigitsPad k sc := by
        simp only [ratToStr, hk]
        rw [if_neg (not_lt.mpr hpos), if_neg hk0]
        simp
      have htrim := trimCh_eq_self (fun c hc => (hmem c hc).1)
      have hnum := List.all_eq_true.mpr (fun c hc => (hmem c hc).2)
      have hsgn : readSign (natDigits (sc / 10 ^ k) ++ dotCh :: natDigitsPad k sc)
          = (1, natDigits (sc / 10 ^ k) ++ dotCh :: natDigitsPad k sc) := by
        rw [hD, List.cons_append]
        exact readSign_digit (natDigits_mem_digit (hD ▸ List.mem_cons_self d ds))
      rw [hout]
      simp only [parseNum, htrim, hnum]
      rw [if_true, parseNumCore_dec hsgn (natDigits_all_digits _) hne hpadd,
        numValOf_dec hpadne, hd12, hpadl]
      congr 1
      rw [hsc]
      exact mkRat_scaled_eq q k hdvd (by omega)

/-! ### Structural lemmas about the load pipeline -/

theorem getD_map_default {α β : Type} (f : α → β) (l : List α) (dA : α) (dB : β)
    (hf : f dA = dB) (j : Nat) : (l.map f).getD j dB = f (l.getD j dA) := by
  rw [List.getD_eq_getElem?_getD, List.getD_eq_getElem?_getD, List.getElem?_map]
  cases l[j]? with
  | none => simpa using hf.symm
  | some a => rfl

theorem padded_getD (r : List Str) (n j : Nat) (hj : j < n) :
    (r.map cellOfRaw ++ List.replicate (n - r.length) Cell.null).getD j Cell.null
      = cellOfRaw (r.getD j []) := by
  by_cases hlt : j < r.length
  · rw [List.getD_eq_getElem?_getD, List.getElem?_append]
    rw [if_pos (by simpa using hlt), List.getElem?_map, List.getElem?_eq_getElem hlt]
    rw [List.getD_eq_getElem?_getD, List.getElem?_eq_getElem hlt]
    rfl
  · have hle : r.length ≤ j := by omega
    rw [List.getD_eq_getElem?_getD,
      List.getElem?_append_right (by simpa using hle), List.getElem?_replicate,
      if_pos (by simp only [List.length_map]; omega)]
    rw [List.getD_eq_default _ _ hle]
    decide

theorem range_map_getD {β : Type} (f : Nat → β) (n j : Nat) (d : β) (hj : j < n) :
    ((List.range n).map f).getD j d = f j := by
  rw [List.getD_eq_getElem?_getD, List.getElem?_map, List.getElem?_range hj]
  rfl

theorem colIdxAux_getD {nm : Str} :
    ∀ {l : List Str} {j : Nat}, colIdxAux nm l = some j →
      l.getD j [] = nm ∧ j < l.length := by
  intro l
  induction l with
  | nil => intro j h; cases h
  | cons a l ih =>
    intro j h
    unfold colIdxAux at h
    by_cases ha : a = nm
    · rw [if_pos ha] at h
      injection h with h
      subst h
      exact ⟨ha, by simp⟩
    · rw [if_neg ha] at h
      cases hj2 : colIdxAux nm l with
      | none => rw [hj2] at h; cases h
      | some j2 =>
        rw [hj2] at h
        injection h with h
        subst h
        obtain ⟨h1, h2⟩ := ih hj2
        exact ⟨by simpa using h1, by simp; omega⟩

theorem colIdx_ne_both {t : Table} {j : Nat} (h1 : colIdx t RYname = some j)
    (h2 : colIdx t URname = some j) : False := by
  have e1 := (colIdxAux_getD h1).1
  have e2 := (colIdxAux_getD h2).1
  rw [e1] at e2
  exact absurd e2 (by decide)

theorem astype_ok_eq {t t2 : Table} {nm : Str}
    (h : astype_Int64 t nm = Except.ok t2) : t2 = t := by
  unfold astype_Int64 at h
  split at h
  · injection h with h
    exact h.symm
  · split at h
    · injection h with h
      exact h.symm
    · exact Except.noConfusion h

theorem to_numeric_col_header (t : Table) (nm : Str) :
    (to_numeric_col t nm).header = t.header := by
  unfold to_numeric_col
  split
  · rfl
  · rfl

theorem stripHeader_rows (t : Table) : (stripHeader t).rows = t.rows := rfl

theorem to_numeric_col_rows (t : Table) (nm : Str) :
    ∃ f : List Cell → List Cell, (to_numeric_col t nm).rows = t.rows.map f := by
  unfold to_numeric_col
  split
  · exact ⟨id, (List.map_id _).symm⟩
  · exact ⟨_, rfl⟩

theorem read_csv_ok_shape {cs : Str} {t0 : Table} (h : read_csv cs = Except.ok t0) :
    ∃ h0 rs, readRecords cs = some (h0 :: rs) ∧ t0.header = mangle h0 ∧
      ∃ g : List Str → List Cell, t0.rows = rs.map g ∧
        ∀ r, (g r).length = h0.length := by
  unfold read_csv at h
  split at h
  · exact Except.noConfusion h
  · exact Except.noConfusion h
  · next h0 rs heq =>
    simp only at h
    split at h
    · exact Except.noConfusion h
    · injection h with h
      subst h
      refine ⟨h0, rs, heq, rfl, ?_⟩
      simp only [List.map_map]
      refine ⟨_, rfl, ?_⟩
      intro r
      simp

theorem load_data_ok_parts {cs : Str} {T : Table} (hL : load_data cs = Except.ok T) :
    ∃ t0, read_csv cs = Except.ok t0 ∧
      T = to_numeric_col (to_numeric_col (stripHeader t0) RYname) URname := by
  unfold load_data at hL
  cases hR : read_csv cs with
  | error e => rw [hR] at hL; exact Except.noConfusion hL
  | ok t0 =>
    rw [hR] at hL
    simp only at hL
    cases hA : astype_Int64 (to_numeric_col (stripHeader t0) RYname) RYname with
    | error e => rw [hA] at hL; exact Except.noConfusion hL
    | ok t3 =>
      rw [hA] at hL
      simp only at hL
      injection hL with hL
      refine ⟨t0, rfl, ?_⟩
      rw [← hL, astype_ok_eq hA]

theorem load_data_shape {cs : Str} {T : Table} (hL : load_data cs = Except.ok T) :
    ∃ h0 rs, readRecords cs = some (h0 :: rs) ∧
      T.header = (mangle h0).map trimCh ∧
      ∃ g : List Str → List Cell, T.rows = rs.map g := by
  obtain ⟨t0, hR, hT⟩ := load_data_ok_parts hL
  obtain ⟨h0, rs, hrec, hhdr, g0, hrows0, hlen⟩ := read_csv_ok_shape hR
  refine ⟨h0, rs, hrec, ?_, ?_⟩
  · rw [hT, to_numeric_col_header, to_numeric_col_header]
    show (stripHeader t0).header = (mangle h0).map trimCh
    rw [show (stripHeader t0).header = t0.header.map trimCh from rfl, hhdr]
  · obtain ⟨f1, hf1⟩ := to_numeric_col_rows (stripHeader t0) RYname
    obtain ⟨f2, hf2⟩ := to_numeric_col_rows (to_numeric_col (stripHeader t0) RYname) URname
    rw [hT, hf2, hf1, stripHeader_rows, hrows0]
    simp only [List.map_map]
    exact ⟨_, rfl⟩

theorem getD_map_lt {α β : Type} (f : α → β) {l : List α} {i : Nat}
    (h : i < l.length) (dA : α) (dB : β) :
    (l.map f).getD i dB = f (l.getD i dA) := by
  rw [List.getD_eq_getElem?_getD, List.getElem?_map, List.getD_eq_getElem?_getD,
    List.getElem?_eq_getElem h]
  rfl

theorem read_csv_cell {cs : Str} {t0 : Table} {h0 : List Str} {rs : List (List Str)}
    (h : read_csv cs = Except.ok t0) (hrec : readRecords cs = some (h0 :: rs))
    {i j : Nat} (hi : i < rs.length) (hj : j < h0.length) :
    ∃ b : Bool, (t0.rows.getD i []).getD j Cell.null
      = inferCell b (cellOfRaw ((rs.getD i []).getD j [])) := by
  unfold read_csv at h
  rw [hrec] at h
  simp only at h
  split at h
  · exact Except.noConfusion h
  · injection h with h
    subst h
    refine ⟨(rs.map (fun r => List.map cellOfRaw r ++
      List.replicate (h0.length - r.length) Cell.null)).all
        (fun r => cellNumOk (r.getD j Cell.null)), ?_⟩
    show ((List.map _ (List.map _ rs)).getD i []).getD j Cell.null = _
    rw [getD_map_lt _ (show i < (List.map (fun r => List.map cellOfRaw r ++
      List.replicate (h0.length - r.length) Cell.null) rs).length by
        simpa using hi) [] []]
    rw [range_map_getD _ _ _ _ hj]
    rw [getD_map_lt _ hi [] []]
    rw [padded_getD _ _ _ hj]

theorem setCol_getD {t : Table} {jc : Nat} {f : Cell → Cell} {i j : Nat}
    (hi : i < t.rows.length) :
    ((setCol t jc f).rows.getD i []).getD j Cell.null =
      if jc = j ∧ j < (t.rows.getD i []).length
        then f ((t.rows.getD i []).getD j Cell.null)
        else (t.rows.getD i []).getD j Cell.null := by
  show ((t.rows.map _).getD i []).getD j Cell.null = _
  rw [getD_map_lt _ hi [] []]
  rw [List.getD_eq_getElem?_getD, List.getElem?_set]
  by_cases hjj : jc = j
  · subst hjj
    by_cases hlt : jc < (t.rows.getD i []).length
    · rw [if_pos rfl, if_pos hlt, if_pos ⟨rfl, hlt⟩]
      rfl
    · rw [if_pos rfl, if_neg hlt, if_neg (fun hand => hlt hand.2)]
      rw [List.getD_eq_default _ _ (by omega)]
      rfl
  · rw [if_neg hjj, if_neg (fun hand => hjj hand.1), ← List.getD_eq_getElem?_getD]

theorem setCol_row_length {t : Table} {jc : Nat} {f : Cell → Cell} {i : Nat}
    (hi : i < t.rows.length) :
    ((setCol t jc f).rows.getD i []).length = (t.rows.getD i []).length := by
  show ((t.rows.map _).getD i []).length = _
  rw [getD_map_lt _ hi [] []]
  exact List.length_set _ _ _

theorem setCol_rows_length (t : Table) (jc : Nat) (f : Cell → Cell) :
    (setCol t jc f).rows.length = t.rows.length := by
  show (t.rows.map _).length = _
  exact List.length_map _ _

theorem to_numeric_col_eq_none {t : Table} {nm : Str}
    (h : colIdx t nm = none) : to_numeric_col t nm = t := by
  unfold to_numeric_col
  rw [h]

theorem to_numeric_col_eq_some {t : Table} {nm : Str} {j : Nat}
    (h : colIdx t nm = some j) :
    to_numeric_col t nm = setCol t j toNumericCell := by
  unfold to_numeric_col
  rw [h]

theorem colIdx_setCol (t : Table) (jc : Nat) (f : Cell → Cell) (nm : Str) :
    colIdx (setCol t jc f) nm = colIdx t nm := rfl

theorem load_data_cell {cs : Str} {T : Table} {h0 : List Str} {rs : List (List Str)}
    (hL : load_data cs = Except.ok T) (hrec : readRecords cs = some (h0 :: rs))
    {i j : Nat} (hi : i < rs.length) (hj : j < h0.length) :
    ∃ b : Bool,
      (T.rows.getD i []).getD j Cell.null =
        (if colIdx T RYname = some j ∨ colIdx T URname = some j
          then toNumericCell (inferCell b (cellOfRaw ((rs.getD i []).getD j [])))
          else inferCell b (cellOfRaw ((rs.getD i []).getD j []))) := by
  obtain ⟨t0, hR, hT⟩ := load_data_ok_parts hL
  obtain ⟨b, hb⟩ := read_csv_cell hR hrec hi hj
  obtain ⟨h0b, rsb, hrecb, hhdr, g, hrows, hglen⟩ := read_csv_ok_shape hR
  rw [hrec] at hrecb
  injection hrecb with hrecb
  injection hrecb with e1 e2
  subst e1
  subst e2
  have hH1 : (stripHeader t0).rows = t0.rows := rfl
  have hlen1 : i < (stripHeader t0).rows.length := by
    rw [hH1, hrows]
    simpa using hi
  have hrowlen1 : ((stripHeader t0).rows.getD i []).length = h0.length := by
    rw [hH1, hrows, getD_map_lt _ (by simpa using hi) [] []]
    exact hglen _
  have hHT : T.header = (stripHeader t0).header := by
    rw [hT, to_numeric_col_header, to_numeric_col_header]
  have hcolRY : colIdx T RYname = colIdx (stripHeader t0) RYname := by
    unfold colIdx
    rw [hHT]
  have hcolUR : colIdx T URname = colIdx (stripHeader t0) URname := by
    unfold colIdx
    rw [hHT]
  have hb2 : ((stripHeader t0).rows.getD i []).getD j Cell.null
      = inferCell b (cellOfRaw ((rs.getD i []).getD j [])) := hb
  refine ⟨b, ?_⟩
  rw [hcolRY, hcolUR]
  cases hJ1 : colIdx (stripHeader t0) RYname with
  | none =>
    rw [hT, to_numeric_col_eq_none hJ1]
    cases hJ2 : colIdx (stripHeader t0) URname with
    | none =>
      rw [to_numeric_col_eq_none hJ2]
      rw [if_neg (by simp)]
      exact hb2
    | some ju =>
      rw [to_numeric_col_eq_some hJ2]
      rw [setCol_getD hlen1]
      by_cases hju : ju = j
      · subst hju
        rw [if_pos ⟨rfl, by rw [hrowlen1]; exact hj⟩, if_pos (Or.inr rfl), hb2]
      · rw [if_neg (fun hand => hju hand.1),
          if_neg (by
            intro hor
            cases hor with
            | inl hx => exact Option.noConfusion hx
            | inr hx => exact hju (Option.some.inj hx)), hb2]
  | some jr =>
    rw [hT, to_numeric_col_eq_some hJ1]
    have hJ2b : ∀ o, colIdx (stripHeader t0) URname = o →
        colIdx (setCol (stripHeader t0) jr toNumericCell) URname = o := by
      intro o ho
      rw [colIdx_setCol]
      exact ho
    cases hJ2 : colIdx (stripHeader t0) URname with
    | none =>
      rw [to_numeric_col_eq_none (hJ2b none hJ2)]
      rw [setCol_getD hlen1]
      by_cases hjr : jr = j
      · subst hjr
        rw [if_pos ⟨rfl, by rw [hrowlen1]; exact hj⟩, if_pos (Or.inl rfl), hb2]
      · rw [if_neg (fun hand => hjr hand.1),
          if_neg (by
            intro hor
            cases hor with
            | inl hx => exact hjr (Option.some.inj hx)
            | inr hx => exact Option.noConfusion hx), hb2]
    | some ju =>
      have hjrju : jr ≠ ju := by
        intro e
        subst e
        exact colIdx_ne_both (t := stripHeader t0) hJ1 hJ2
      rw [to_numeric_col_eq_some (hJ2b (some ju) hJ2)]
      have hlen2 : i < (setCol (stripHeader t0) jr toNumericCell).rows.length := by
        rw [setCol_rows_length]
        exact hlen1
      rw [setCol_getD hlen2]
      by_cases hju : ju = j
      · subst hju
        rw [if_pos ⟨rfl, by rw [setCol_row_length hlen1, hrowlen1]; exact hj⟩]
        rw [setCol_getD hlen1]
        rw [if_neg (fun hand => hjrju (by omega))]
        rw [if_pos (Or.inr rfl), hb2]
      · rw [if_neg (fun hand => hju hand.1)]
        rw [setCol_getD hlen1]
        by_cases hjr : jr = j
        · subst hjr
          rw [if_pos ⟨rfl, by rw [hrowlen1]; exact hj⟩, if_pos (Or.inl rfl), hb2]
        · rw [if_neg (fun hand => hjr hand.1),
            if_neg (by
              intro hor
              cases hor with
              | inl hx => exact hjr (Option.some.inj hx)
              | inr hx => exact hju (Option.some.inj hx)), hb2]

/-! ### Shared lemmas for the cleaning claims -/

theorem mem_dropWhile_of_not {p : Char → Bool} {c : Char} {cs : Str}
    (hc : c ∈ cs) (hp : p c = false) : c ∈ cs.dropWhile p := by
  induction cs with
  | nil => cases hc
  | cons a l ih =>
    rw [List.dropWhile_cons]
    by_cases ha : p a = true
    · rw [if_pos ha]
      rcases List.mem_cons.mp hc with rfl | h2
      · rw [hp] at ha
        cases ha
      · exact ih h2
    · rw [if_neg ha]
      exact hc

theorem mem_trimCh {c : Char} {cs : Str} (hc : c ∈ cs) (hw : isWS c = false) :
    c ∈ trimCh cs := by
  unfold trimCh
  rw [List.mem_reverse]
  apply mem_dropWhile_of_not _ hw
  rw [List.mem_reverse]
  exact mem_dropWhile_of_not hc hw

theorem parseNum_none_of_comma {s : Str} (h : commaCh ∈ s) : parseNum s = none := by
  unfold parseNum
  cases hall : (trimCh s).all isNumCh with
  | false => simp [hall]
  | true =>
    have hmem := List.all_eq_true.mp hall commaCh (mem_trimCh h (by decide))
    exact absurd hmem (by decide)

theorem numeric_cell_null {b : Bool} {s : Str} (hparse : parseNum s = none) :
    toNumericCell (inferCell b (cellOfRaw s)) = Cell.null := by
  unfold cellOfRaw
  by_cases hna : s ∈ naStrings
  · rw [if_pos hna]
    cases b <;> simp [inferCell, toNumericCell]
  · rw [if_neg hna]
    cases b
    · simp [inferCell, toNumericCell, hparse]
    · simp [inferCell, toNumericCell, hparse]

/-! ### Claims C1, C2, C3 (cleaning of numeric placeholders and rows) -/

/-- C1 counterexample: at the concrete input with a dash cell in the
numeric-declared `Release Year` column, `load_data` produces null for
that cell, and null is not the number 0 — refuting the claim that the
dash placeholder normalizes to 0. -/
theorem claim_C1_counterexample :
    load_data ("Game Name,Release Year\nfoo,-\n").data =
      Except.ok (Table.mk ["Game Name".data, "Release Year".data]
        [[Cell.str "foo".data, Cell.null]]) ∧
    Cell.null ≠ Cell.num 0 := ⟨by decide, by decide⟩

/-- C1 amended: for every numeric-declared column (the `Release Year`
and `User Rating` columns the pipeline coerces), a cell holding the
bare dash placeholder is normalized by `load_data` to null, not to the
number 0. -/
theorem claim_C1 {cs : Str} {T : Table} {h0 : List Str} {rs : List (List Str)}
    {i j : Nat}
    (hL : load_data cs = Except.ok T) (hrec : readRecords cs = some (h0 :: rs))
    (hi : i < rs.length) (hj : j < h0.length)
    (hcol : colIdx T RYname = some j ∨ colIdx T URname = some j)
    (hs : (rs.getD i []).getD j [] = [dashCh]) :
    (T.rows.getD i []).getD j Cell.null = Cell.null ∧
      Cell.null ≠ Cell.num 0 := by
  obtain ⟨b, hb⟩ := load_data_cell hL hrec hi hj
  rw [hb, if_pos hcol, hs]
  exact ⟨numeric_cell_null (by decide), by decide⟩

/-- C1 witness: the amended statement applied at the counterexample
input. -/
theorem claim_C1_witness :
    load_data ("Game Name,Release Year\nfoo,-\n").data =
      Except.ok (Table.mk ["Game Name".data, "Release Year".data]
        [[Cell.str "foo".data, Cell.null]]) ∧
    ((Table.mk ["Game Name".data, "Release Year".data]
        [[Cell.str "foo".data, Cell.null]]).rows.getD 0 []).getD 1 Cell.null
      = Cell.null ∧ Cell.null ≠ Cell.num 0 :=
  ⟨by decide,
    @claim_C1 ("Game Name,Release Year\nfoo,-\n").data
      (Table.mk ["Game Name".data, "Release Year".data]
        [[Cell.str "foo".data, Cell.null]])
      ["Game Name".data, "Release Year".data]
      [[ "foo".data, [dashCh]]] 0 1
      (by decide) (by decide) (by decide) (by decide)
      (Or.inl (by decide)) (by decide)⟩

/-- C2 counterexample: at the concrete input whose `Release Year` cell
is the locale-formatted string 12,345 (quoted in the CSV), `load_data`
produces null, not the number 12345 — refuting the claim. -/
theorem claim_C2_counterexample :
    load_data ("Game Name,Release Year\nfoo,\"12,345\"\n").data =
      Except.ok (Table.mk ["Game Name".data, "Release Year".data]
        [[Cell.str "foo".data, Cell.null]]) ∧
    Cell.null ≠ Cell.num 12345 := ⟨by decide, by decide⟩

/-- C2 amended: for every numeric-declared column, a cell containing a
thousands separator (any comma, as in 12,345) fails numeric parsing and
is normalized by `load_data` to null, not to the equivalent number. -/
theorem claim_C2 {cs : Str} {T : Table} {h0 : List Str} {rs : List (List Str)}
    {i j : Nat} {s : Str}
    (hL : load_data cs = Except.ok T) (hrec : readRecords cs = some (h0 :: rs))
    (hi : i < rs.length) (hj : j < h0.length)
    (hcol : colIdx T RYname = some j ∨ colIdx T URname = some j)
    (hs : (rs.getD i []).getD j [] = s) (hcomma : commaCh ∈ s) :
    (T.rows.getD i []).getD j Cell.null = Cell.null ∧
      ∀ q : Rat, Cell.null ≠ Cell.num q := by
  obtain ⟨b, hb⟩ := load_data_cell hL hrec hi hj
  rw [hb, if_pos hcol, hs]
  exact ⟨numeric_cell_null (parseNum_none_of_comma hcomma),
    fun q h => Cell.noConfusion h⟩

/-- C2 witness: the amended statement applied at the counterexample
input. -/
theorem claim_C2_witness :
    (load_data ("Game Name,Release Year\nfoo,\"12,345\"\n").data =
      Except.ok (Table.mk ["Game Name".data, "Release Year".data]
        [[Cell.str "foo".data, Cell.null]]) ∧
      commaCh ∈ "12,345".data) ∧
    ((Table.mk ["Game Name".data, "Release Year".data]
        [[Cell.str "foo".data, Cell.null]]).rows.getD 0 []).getD 1 Cell.null
      = Cell.null ∧ ∀ q : Rat, Cell.null ≠ Cell.num q :=
  ⟨⟨by decide, by decide⟩,
    @claim_C2 ("Game Name,Release Year\nfoo,\"12,345\"\n").data
      (Table.mk ["Game Name".data, "Release Year".data]
        [[Cell.str "foo".data, Cell.null]])
      ["Game Name".data, "Release Year".data]
      [[ "foo".data, "12,345".data]] 0 1 "12,345".data
      (by decide) (by decide) (by decide) (by decide)
      (Or.inl (by decide)) (by decide) (by decide)⟩

/-- C3 counterexample: a row whose required name field is missing is
kept by `load_data`: at the concrete input the output has exactly one
row and its name cell is null — refuting the claim that such rows never
appear in the output. -/
theorem claim_C3_counterexample :
    load_data ("Game Name,Release Year\n,2020\n").data =
      Except.ok (Table.mk ["Game Name".data, "Release Year".data]
        [[Cell.null, Cell.num (mkRat 2020 1)]]) ∧
    (Table.mk ["Game Name".data, "Release Year".data]
      [[Cell.null, Cell.num (mkRat 2020 1)]]).rows.length = 1 ∧
    ((Table.mk ["Game Name".data, "Release Year".data]
      [[Cell.null, Cell.num (mkRat 2020 1)]]).rows.getD 0 []).getD 0 Cell.null
      = Cell.null := ⟨by decide, by decide, by decide⟩

/-- C3 amended: `load_data` performs no row filtering at all: the
output has exactly one row per parsed input data row, so rows with a
blank or null name field are retained. -/
theorem claim_C3 {cs : Str} {T : Table} {h0 : List Str} {rs : List (List Str)}
    (hL : load_data cs = Except.ok T) (hrec : readRecords cs = some (h0 :: rs)) :
    T.rows.length = rs.length := by
  obtain ⟨h0b, rsb, hrecb, _, g, hrows⟩ := load_data_shape hL
  rw [hrec] at hrecb
  injection hrecb with hrecb
  injection hrecb with e1 e2
  subst e1
  subst e2
  rw [hrows]
  exact List.length_map _ _

/-- C3 witness: the amended statement applied at the counterexample
input. -/
theorem claim_C3_witness :
    (load_data ("Game Name,Release Year\n,2020\n").data =
      Except.ok (Table.mk ["Game Name".data, "Release Year".data]
        [[Cell.null, Cell.num (mkRat 2020 1)]]) ∧
      readRecords ("Game Name,Release Year\n,2020\n").data =
        some [["Game Name".data, "Release Year".data], [[], "2020".data]]) ∧
    (Table.mk ["Game Name".data, "Release Year".data]
      [[Cell.null, Cell.num (mkRat 2020 1)]]).rows.length =
      ([[[], "2020".data]] : List (List Str)).length :=
  ⟨⟨by decide, by decide⟩,
    @claim_C3 ("Game Name,Release Year\n,2020\n").data
      (Table.mk ["Game Name".data, "Release Year".data]
        [[Cell.null, Cell.num (mkRat 2020 1)]])
      ["Game Name".data, "Release Year".data]
      [[[], "2020".data]] (by decide) (by decide)⟩

/-! ### Claims C5, C6, C7 (error handling of the load step) -/

/-- C5 counterexample: a concrete byte input that a fallback encoding
in the spec's candidate list decodes (so the spec's try-in-order load
succeeds on it) but on which the source's load step fails with the
decode error — refuting the claim that the load step tries each
candidate encoding until one succeeds. -/
theorem claim_C5_counterexample :
    load_data_bytes [65, 10, 255, 10] = Except.error LoadErr.unicodeErr ∧
    specTryLoad [65, 10, 255, 10] =
      Except.ok (Table.mk ["A".data] [[Cell.str [chOf 255]]]) :=
  ⟨by decide, by decide⟩

/-- C5 amended: the load step attempts exactly one encoding, the UTF-8
default; when that decoding fails the whole load fails with the decode
error, producing no partial result. -/
theorem claim_C5 {bs : List Nat} (h : decodeUtf8 bs = none) :
    load_data_bytes bs = Except.error LoadErr.unicodeErr := by
  unfold load_data_bytes
  rw [h]

/-- C5 witness: the amended statement applied at a concrete
non-UTF-8 input. -/
theorem claim_C5_witness :
    decodeUtf8 [255] = none ∧
    load_data_bytes [255] = Except.error LoadErr.unicodeErr :=
  ⟨by decide, claim_C5 (by decide)⟩

/-- C6 counterexample: at a concrete input without the declared
numeric column `Release Year`, `load_data` succeeds but its output does
not contain that column at all (no all-null column is synthesized) —
refuting the claim. -/
theorem claim_C6_counterexample :
    load_data ("Game Name\nfoo\n").data =
      Except.ok (Table.mk ["Game Name".data] [[Cell.str "foo".data]]) ∧
    ¬ RYname ∈ (Table.mk ["Game Name".data] [[Cell.str "foo".data]]).header :=
  ⟨by decide, by decide⟩

/-- C6 amended: `load_data` does not fail when a declared numeric
column is absent, but it synthesizes nothing: the output header is
exactly the stripped (deduplicated) input header, so a name absent from
that is absent from the output. -/
theorem claim_C6 {cs : Str} {T : Table} {h0 : List Str} {rs : List (List Str)}
    (hL : load_data cs = Except.ok T) (hrec : readRecords cs = some (h0 :: rs)) :
    T.header = (mangle h0).map trimCh ∧
      (¬ RYname ∈ (mangle h0).map trimCh → ¬ RYname ∈ T.header) := by
  obtain ⟨h0b, rsb, hrecb, hhdr, _⟩ := load_data_shape hL
  rw [hrec] at hrecb
  injection hrecb with hrecb
  injection hrecb with e1 e2
  subst e1
  subst e2
  exact ⟨hhdr, fun hna hmem => hna (hhdr ▸ hmem)⟩

/-- C6 witness: the amended statement applied at the counterexample
input. -/
theorem claim_C6_witness :
    (load_data ("Game Name\nfoo\n").data =
      Except.ok (Table.mk ["Game Name".data] [[Cell.str "foo".data]]) ∧
      readRecords ("Game Name\nfoo\n").data =
        some [["Game Name".data], ["foo".data]]) ∧
    ((Table.mk ["Game Name".data] [[Cell.str "foo".data]]).header =
        (mangle ["Game Name".data]).map trimCh ∧
      (¬ RYname ∈ (mangle ["Game Name".data]).map trimCh →
        ¬ RYname ∈ (Table.mk ["Game Name".data] [[Cell.str "foo".data]]).header)) :=
  ⟨⟨by decide, by decide⟩,
    @claim_C6 ("Game Name\nfoo\n").data
      (Table.mk ["Game Name".data] [[Cell.str "foo".data]])
      ["Game Name".data] [["foo".data]] (by decide) (by decide)⟩

/-- C7: a cell of a numeric-declared column that cannot be coerced to a
number is converted by the cleaning step to null, and such a cell never
raises: the Int64 cast accepts the resulting null cell. -/
theorem claim_C7 {cs : Str} {T : Table} {h0 : List Str} {rs : List (List Str)}
    {i j : Nat} {s : Str}
    (hL : load_data cs = Except.ok T) (hrec : readRecords cs = some (h0 :: rs))
    (hi : i < rs.length) (hj : j < h0.length)
    (hcol : colIdx T RYname = some j ∨ colIdx T URname = some j)
    (hs : (rs.getD i []).getD j [] = s) (hparse : parseNum s = none) :
    (T.rows.getD i []).getD j Cell.null = Cell.null ∧
      cellIntOk Cell.null = true := by
  obtain ⟨b, hb⟩ := load_data_cell hL hrec hi hj
  rw [hb, if_pos hcol, hs]
  exact ⟨numeric_cell_null hparse, by decide⟩

/-- C7 witness: the statement applied at a concrete unparseable cell. -/
theorem claim_C7_witness :
    (load_data ("Game Name,Release Year\nfoo,zzz\n").data =
      Except.ok (Table.mk ["Game Name".data, "Release Year".data]
        [[Cell.str "foo".data, Cell.null]]) ∧
      parseNum "zzz".data = none) ∧
    (((Table.mk ["Game Name".data, "Release Year".data]
        [[Cell.str "foo".data, Cell.null]]).rows.getD 0 []).getD 1 Cell.null
      = Cell.null ∧ cellIntOk Cell.null = true) :=
  ⟨⟨by decide, by decide⟩,
    @claim_C7 ("Game Name,Release Year\nfoo,zzz\n").data
      (Table.mk ["Game Name".data, "Release Year".data]
        [[Cell.str "foo".data, Cell.null]])
      ["Game Name".data, "Release Year".data]
      [[ "foo".data, "zzz".data]] 0 1 "zzz".data
      (by decide) (by decide) (by decide) (by decide)
      (Or.inl (by decide)) (by decide) (by decide)⟩

/-! ### Claims C8, C10 (row order and the year-range filter) -/

/-- C8: the Normalizer removes or transforms rows but never reorders:
the output of `load_data` carries exactly one row per parsed input data
row, obtained by mapping a single row function over them in order, and
the subsequently filtered set is a sublist (order-preserving
subsequence) of the cleaned rows. -/
theorem claim_C8 {cs : Str} {T : Table} {h0 : List Str} {rs : List (List Str)}
    (hL : load_data cs = Except.ok T) (hrec : readRecords cs = some (h0 :: rs)) :
    (∃ g : List Str → List Cell, T.rows = rs.map g) ∧
    ∀ (f : Filters) (t2 : Table), df_filtered T f = some t2 →
      t2.rows.Sublist T.rows := by
  obtain ⟨h0b, rsb, hrecb, _, g, hrows⟩ := load_data_shape hL
  rw [hrec] at hrecb
  injection hrecb with hrecb
  injection hrecb with e1 e2
  subst e1
  subst e2
  refine ⟨⟨g, hrows⟩, ?_⟩
  intro f t2 h2
  unfold df_filtered at h2
  cases hjy : colIdx T RYname with
  | none => rw [hjy] at h2; cases h2
  | some jy =>
    rw [hjy] at h2
    injection h2 with h2
    rw [← h2]
    exact List.filter_sublist _

/-- C8 witness: the statement applied at a concrete two-row input. -/
theorem claim_C8_witness :
    (load_data ("Game Name,Release Year\na,2001\nb,2002\n").data =
      Except.ok (Table.mk ["Game Name".data, "Release Year".data]
        [[Cell.str "a".data, Cell.num (mkRat 2001 1)],
          [Cell.str "b".data, Cell.num (mkRat 2002 1)]]) ∧
      readRecords ("Game Name,Release Year\na,2001\nb,2002\n").data =
        some [["Game Name".data, "Release Year".data],
          ["a".data, "2001".data], ["b".data, "2002".data]]) ∧
    ((∃ g : List Str → List Cell,
        (Table.mk ["Game Name".data, "Release Year".data]
          [[Cell.str "a".data, Cell.num (mkRat 2001 1)],
            [Cell.str "b".data, Cell.num (mkRat 2002 1)]]).rows =
        [["a".data, "2001".data], ["b".data, "2002".data]].map g) ∧
      ∀ (f : Filters) (t2 : Table),
        df_filtered (Table.mk ["Game Name".data, "Release Year".data]
          [[Cell.str "a".data, Cell.num (mkRat 2001 1)],
            [Cell.str "b".data, Cell.num (mkRat 2002 1)]]) f = some t2 →
        t2.rows.Sublist (Table.mk ["Game Name".data, "Release Year".data]
          [[Cell.str "a".data, Cell.num (mkRat 2001 1)],
            [Cell.str "b".data, Cell.num (mkRat 2002 1)]]).rows) :=
  ⟨⟨by decide, by decide⟩,
    @claim_C8 ("Game Name,Release Year\na,2001\nb,2002\n").data
      (Table.mk ["Game Name".data, "Release Year".data]
        [[Cell.str "a".data, Cell.num (mkRat 2001 1)],
          [Cell.str "b".data, Cell.num (mkRat 2002 1)]])
      ["Game Name".data, "Release Year".data]
      [["a".data, "2001".data], ["b".data, "2002".data]]
      (by decide) (by decide)⟩

/-- C10: the year-range filter drops every row whose `Release Year`
cell is null, for every selected range and filter state: no row of the
filtered set has a null year cell. -/
theorem claim_C10 {t : Table} {f : Filters} {t2 : Table} {jy : Nat}
    (h2 : df_filtered t f = some t2) (hjy : colIdx t RYname = some jy) :
    ∀ r ∈ t2.rows, r.getD jy Cell.null ≠ Cell.null := by
  unfold df_filtered at h2
  rw [hjy] at h2
  injection h2 with h2
  intro r hr heq
  rw [← h2] at hr
  have hkeep := (List.mem_filter.mp hr).2
  unfold rowKeep at hkeep
  simp only [Bool.and_eq_true] at hkeep
  have h1 := hkeep.1.1.1
  rw [heq] at h1
  exact Bool.noConfusion h1

/-- C10 witness: the statement applied at a concrete table holding a
null-year row, which the filter drops for the full year range. -/
theorem claim_C10_witness :
    (df_filtered (Table.mk ["Release Year".data]
        [[Cell.null], [Cell.num (mkRat 2020 1)]])
      (Filters.mk 0 3000 none none none) =
      some (Table.mk ["Release Year".data] [[Cell.num (mkRat 2020 1)]]) ∧
      colIdx (Table.mk ["Release Year".data]
        [[Cell.null], [Cell.num (mkRat 2020 1)]]) RYname = some 0) ∧
    ∀ r ∈ (Table.mk ["Release Year".data]
        [[Cell.num (mkRat 2020 1)]]).rows, r.getD 0 Cell.null ≠ Cell.null :=
  ⟨⟨by decide, by decide⟩,
    @claim_C10 (Table.mk ["Release Year".data]
        [[Cell.null], [Cell.num (mkRat 2020 1)]])
      (Filters.mk 0 3000 none none none)
      (Table.mk ["Release Year".data] [[Cell.num (mkRat 2020 1)]]) 0
      (by decide) (by decide)⟩

/-! ### Claim C4 (neighbor finder never returns the anchor) -/

/-- C4: the Neighbor Similarity Finder (modelled from the spec, see
`knnQuery`) applied to a filtered set of size at least two that
contains the anchor identifier succeeds, never includes any record
carrying the anchor identifier in its result, and returns at most k
and at most n - 1 records. -/
theorem claim_C4 {rs : List Record} {anchor : Str} {k : Nat}
    (hmem : anchor ∈ rs.map Record.name) (hn : 2 ≤ rs.length) :
    ∃ res : List (Record × SqrtExt), knnQuery rs anchor k = Except.ok res ∧
      (∀ pr ∈ res, pr.1.name ≠ anchor) ∧
      res.length ≤ k ∧ res.length ≤ rs.length - 1 := by
  unfold knnQuery
  rw [if_neg (not_not_intro hmem), if_neg (not_lt.mpr hn)]
  obtain ⟨r0, hr0mem, hr0name⟩ : ∃ r ∈ rs, r.name = anchor := by
    obtain ⟨r, hr, he⟩ := List.mem_map.mp hmem
    exact ⟨r, hr, he⟩
  cases hhead : (rs.filter (fun r => r.name = anchor)).head? with
  | none =>
    have hnil := List.head?_eq_none_iff.mp hhead
    have : r0 ∈ rs.filter (fun r => r.name = anchor) :=
      List.mem_filter.mpr ⟨hr0mem, by simp [hr0name]⟩
    rw [hnil] at this
    cases this
  | some a =>
    refine ⟨_, rfl, ?_, ?_, ?_⟩
    · intro pr hpr
      have hsorted := List.take_subset _ _ hpr
      have hkeyed := (List.Perm.mem_iff (List.perm_insertionSort _ _)).mp hsorted
      obtain ⟨r, hrmem, hre⟩ := List.mem_map.mp hkeyed
      have hrname := (List.mem_filter.mp hrmem).2
      rw [← hre]
      simpa using hrname
    · rw [List.length_take]
      exact min_le_left _ _
    · rw [List.length_take]
      have h1 : (List.insertionSort
          (fun x y => sqrtExtLe (scoreVar rs) x.2 y.2 = true)
          ((rs.filter (fun r => ¬ r.name = anchor)).map
            (fun r => (r, distKey rs ((rs.map catOf).dedup)
              ((rs.map subcatOf).dedup) a r)))).length =
          (rs.filter (fun r => ¬ r.name = anchor)).length := by
        rw [List.length_insertionSort, List.length_map]
      have h2 : (rs.filter (fun r => ¬ r.name = anchor)).length < rs.length :=
        List.length_filter_lt_length_iff_exists.mpr
          ⟨r0, hr0mem, by simp [hr0name]⟩
      calc min k _ ≤ _ := min_le_right _ _
        _ = (rs.filter (fun r => ¬ r.name = anchor)).length := h1
        _ ≤ rs.length - 1 := by omega

/-- C4 witness: the statement applied at a concrete two-record set. -/
theorem claim_C4_witness :
    ("a".data ∈ ([Record.mk "a".data none none none none,
        Record.mk "b".data none none none none].map Record.name) ∧
      2 ≤ ([Record.mk "a".data none none none none,
        Record.mk "b".data none none none none] : List Record).length) ∧
    ∃ res : List (Record × SqrtExt),
      knnQuery [Record.mk "a".data none none none none,
        Record.mk "b".data none none none none] "a".data 1 = Except.ok res ∧
      (∀ pr ∈ res, pr.1.name ≠ "a".data) ∧
      res.length ≤ 1 ∧
      res.length ≤ ([Record.mk "a".data none none none none,
        Record.mk "b".data none none none none] : List Record).length - 1 :=
  ⟨⟨by decide, by decide⟩, claim_C4 (by decide) (by decide)⟩

/-! ### Inverse lemmas: the tokenizer reads back what the serializer
writes -/

theorem parseQuoted_close {rest : Str}
    (h : ∀ c cs2, rest = c :: cs2 → ¬ c = quoteCh) :
    parseQuoted (quoteCh :: rest) = some ([], rest) := by
  cases rest with
  | nil => rfl
  | cons c2 cs2 =>
    have hc := h c2 cs2 rfl
    simp only [parseQuoted, if_pos rfl]
    rw [if_neg hc]
    simp

theorem parseQuoted_esc (cs : Str) :
    parseQuoted (quoteCh :: quoteCh :: cs) =
      (parseQuoted cs).map (fun p => (quoteCh :: p.1, p.2)) := by
  simp only [parseQuoted, if_pos rfl]
  simp

theorem parseQuoted_other {c : Char} (cs : Str) (h : ¬ c = quoteCh) :
    parseQuoted (c :: cs) = (parseQuoted cs).map (fun p => (c :: p.1, p.2)) := by
  conv_lhs => unfold parseQuoted
  rw [if_neg h]

theorem parseUnquoted_sep {c : Char} (cs : Str) (h : c = commaCh ∨ c = nlCh) :
    parseUnquoted (c :: cs) = ([], c :: cs) := by
  unfold parseUnquoted
  rw [if_pos h]

theorem parseUnquoted_other {c : Char} (cs : Str) (h : ¬(c = commaCh ∨ c = nlCh)) :
    parseUnquoted (c :: cs) = (c :: (parseUnquoted cs).1, (parseUnquoted cs).2) := by
  conv_lhs => unfold parseUnquoted
  rw [if_neg h]

theorem parseField_quote (cs : Str) : parseField (quoteCh :: cs) = parseQuoted cs := rfl

theorem parseField_other {c : Char} (cs : Str) (h : ¬ c = quoteCh) :
    parseField (c :: cs) = some (parseUnquoted (c :: cs)) := by
  show (if c = quoteCh then parseQuoted cs else some (parseUnquoted (c :: cs))) = _
  rw [if_neg h]

theorem parseQuoted_escQuotes {s : Str} : ∀ {rest : Str},
    (∀ c cs2, rest = c :: cs2 → ¬ c = quoteCh) →
    parseQuoted (escQuotes s ++ quoteCh :: rest) = some (s, rest) := by
  induction s with
  | nil =>
    intro rest hrest
    exact parseQuoted_close hrest
  | cons a s ih =>
    intro rest hrest
    by_cases ha : a = quoteCh
    · subst ha
      show parseQuoted (quoteCh :: quoteCh :: (escQuotes s ++ quoteCh :: rest)) = _
      rw [parseQuoted_esc, ih hrest]
      rfl
    · have hesc : escQuotes (a :: s) = a :: escQuotes s := by
        conv_lhs => unfold escQuotes
        rw [if_neg ha]
      rw [hesc, List.cons_append, parseQuoted_other _ ha, ih hrest]
      rfl

theorem parseUnquoted_append {s : Str} : ∀ {rest : Str},
    (∀ c ∈ s, ¬(c = commaCh ∨ c = nlCh)) →
    (rest = [] ∨ ∃ c cs2, rest = c :: cs2 ∧ (c = commaCh ∨ c = nlCh)) →
    parseUnquoted (s ++ rest) = (s, rest) := by
  induction s with
  | nil =>
    intro rest _ hrest
    rcases hrest with rfl | ⟨c, cs2, rfl, hc⟩
    · rfl
    · exact parseUnquoted_sep cs2 hc
  | cons a s ih =>
    intro rest hs hrest
    show parseUnquoted (a :: (s ++ rest)) = _
    rw [parseUnquoted_other _ (hs a (List.mem_cons_self a s)),
      ih (fun c hc => hs c (List.mem_cons_of_mem a hc)) hrest]

theorem needsQuote_false_free {s : Str} (hq : needsQuote s = false) :
    ∀ c ∈ s, ¬ c = commaCh ∧ ¬ c = quoteCh ∧ ¬ c = nlCh ∧ ¬ c = crCh := by
  intro c hc
  have hcc := List.any_eq_false.mp hq c hc
  simp only [Bool.or_eq_true, decide_eq_true_eq, not_or] at hcc
  exact ⟨hcc.1.1.1, hcc.1.1.2, hcc.1.2, hcc.2⟩

theorem parseField_renderField {s : Str} {rest : Str}
    (hrest : rest = [] ∨ ∃ c cs2, rest = c :: cs2 ∧ (c = commaCh ∨ c = nlCh)) :
    parseField (renderField s ++ rest) = some (s, rest) := by
  have hrestq : ∀ c cs2, rest = c :: cs2 → ¬ c = quoteCh := by
    intro c cs2 hcc
    rcases hrest with rfl | ⟨c2, cs3, he, hc2⟩
    · cases hcc
    · rw [he] at hcc
      injection hcc with e1 _
      subst e1
      rcases hc2 with rfl | rfl
      · decide
      · decide
  cases hq : needsQuote s with
  | true =>
    have heq : renderField s ++ rest
        = quoteCh :: (escQuotes s ++ quoteCh :: rest) := by
      unfold renderField
      rw [if_pos hq]
      simp
    rw [heq, parseField_quote, parseQuoted_escQuotes hrestq]
  | false =>
    have hfree := needsQuote_false_free hq
    have hren : renderField s = s := by
      unfold renderField
      rw [if_neg (by rw [hq]; exact Bool.false_ne_true)]
    rw [hren]
    cases hsv : s with
    | nil =>
      rcases hrest with rfl | ⟨c, cs2, rfl, hc⟩
      · rfl
      · rw [List.nil_append, parseField_other _ (hrestq c cs2 rfl),
          parseUnquoted_sep _ hc]
    | cons a s2 =>
      have hfa := hfree a (hsv ▸ List.mem_cons_self a s2)
      show parseField (a :: (s2 ++ rest)) = _
      rw [parseField_other _ hfa.2.1]
      have hk := @parseUnquoted_append (a :: s2) rest
        (fun c hc => by
          have := hfree c (hsv ▸ hc)
          intro hor
          rcases hor with rfl | rfl
          · exact this.1 rfl
          · exact this.2.2.1 rfl)
        hrest
      rw [show a :: (s2 ++ rest) = (a :: s2) ++ rest from rfl, hk]

theorem renderRow_length_ge : ∀ fs : List Str, fs.length ≤ (renderRow fs).length + 1
  | [] => by simp [renderRow]
  | [f] => by simp [renderRow]
  | f :: g :: gs => by
    have ih := renderRow_length_ge (g :: gs)
    show (f :: g :: gs).length ≤ (renderField f ++ commaCh :: renderRow (g :: gs)).length + 1
    simp only [List.length_cons, List.length_append] at *
    omega

theorem parseRecordF_renderRow :
    ∀ (fs : List Str) (fuel : Nat) (rest : Str), fs ≠ [] → fs.length ≤ fuel →
      parseRecordF fuel (renderRow fs ++ nlCh :: rest) = some (fs, rest) := by
  intro fs
  induction fs with
  | nil => intro fuel rest hne _; exact absurd rfl hne
  | cons f fs ih =>
    intro fuel rest _ hfuel
    cases fuel with
    | zero => simp at hfuel
    | succ fuel =>
      cases fs with
      | nil =>
        have hfield := @parseField_renderField f (nlCh :: rest)
          (Or.inr ⟨nlCh, rest, rfl, Or.inr rfl⟩)
        show parseRecordF (fuel + 1) (renderField f ++ nlCh :: rest) = _
        conv_lhs => unfold parseRecordF
        rw [hfield]
        dsimp only
        rw [if_pos rfl]
      | cons g gs =>
        have hlen : (g :: gs).length ≤ fuel := by
          simp only [List.length_cons] at hfuel ⊢
          omega
        have hrec := ih fuel rest (by simp) hlen
        have hfield := @parseField_renderField f
          (commaCh :: (renderRow (g :: gs) ++ nlCh :: rest))
          (Or.inr ⟨commaCh, _, rfl, Or.inl rfl⟩)
        show parseRecordF (fuel + 1)
          (renderField f ++ commaCh :: renderRow (g :: gs) ++ nlCh :: rest) = _
        conv_lhs => unfold parseRecordF
        rw [show (renderField f ++ commaCh :: renderRow (g :: gs)) ++ nlCh :: rest
          = renderField f ++ commaCh :: (renderRow (g :: gs) ++ nlCh :: rest) by
            simp]
        rw [hfield]
        dsimp only
        rw [if_neg (show ¬ commaCh = nlCh by decide), if_pos rfl, hrec]
        rfl

theorem renderLines_length_ge : ∀ rows : List (List Str),
    rows.length ≤ (renderLines rows).length
  | [] => by simp [renderLines]
  | r :: rest => by
    have ih := renderLines_length_ge rest
    show (r :: rest).length ≤ ((renderRow r ++ [nlCh]) ++ renderLines rest).length
    simp only [List.length_cons, List.length_append, List.length_cons,
      List.length_nil] at *
    omega

theorem renderLines_cons (r : List Str) (rest : List (List Str)) :
    renderLines (r :: rest) = renderRow r ++ nlCh :: renderLines rest := by
  show (renderRow r ++ [nlCh]) ++ renderLines rest = _
  simp

theorem parseDocF_ne (fuel : Nat) {cs : Str} (h : cs ≠ []) :
    parseDocF (fuel + 1) cs =
      match parseRecordF (cs.length + 1) cs with
      | none => none
      | some (r, rest) => (parseDocF fuel rest).map (fun d => r :: d) := by
  cases cs with
  | nil => exact absurd rfl h
  | cons c cs2 =>
    simp only [parseDocF]

theorem parseDocF_renderLines :
    ∀ (rows : List (List Str)) (fuel : Nat), (∀ r ∈ rows, r ≠ []) →
      rows.length ≤ fuel →
      parseDocF fuel (renderLines rows) = some rows := by
  intro rows
  induction rows with
  | nil => intro fuel _ _; cases fuel <;> rfl
  | cons r rest ih =>
    intro fuel hne hfuel
    cases fuel with
    | zero => simp at hfuel
    | succ fuel =>
      rw [renderLines_cons]
      have hrne : r ≠ [] := hne r (List.mem_cons_self r rest)
      have hrec : parseRecordF ((renderRow r ++ nlCh :: renderLines rest).length + 1)
          (renderRow r ++ nlCh :: renderLines rest) = some (r, renderLines rest) := by
        apply parseRecordF_renderRow _ _ _ hrne
        have h1 := renderRow_length_ge r
        simp only [List.length_append, List.length_cons]
        omega
      rw [parseDocF_ne fuel (by simp), hrec]
      dsimp only
      rw [ih fuel (fun r2 hr2 => hne r2 (List.mem_cons_of_mem r hr2))
        (by simp only [List.length_cons] at hfuel; omega)]
      rfl

theorem readRecords_renderLines {rows : List (List Str)}
    (hne : ∀ r ∈ rows, r ≠ []) (hnb : ∀ r ∈ rows, r ≠ [[]]) :
    readRecords (renderLines rows) = some rows := by
  unfold readRecords
  rw [parseDocF_renderLines rows ((renderLines rows).length + 1) hne
    (Nat.le_trans (renderLines_length_ge rows) (Nat.le_succ _))]
  show some (List.filter _ rows) = some rows
  congr 1
  rw [List.filter_eq_self]
  intro r hr
  simpa using hnb r hr

/-! ### Support lemmas for the cleaning invariant -/

theorem dropWhile_head_false {p : Char → Bool} :
    ∀ {xs : Str} {c : Char} {rest : Str}, xs.dropWhile p = c :: rest → p c = false := by
  intro xs
  induction xs with
  | nil => intro c rest h; cases h
  | cons a l ih =>
    intro c rest h
    rw [List.dropWhile_cons] at h
    by_cases ha : p a = true
    · rw [if_pos ha] at h
      exact ih h
    · rw [if_neg ha] at h
      injection h with e1 _
      subst e1
      exact Bool.not_eq_true _ ▸ ha

theorem dropWhile_eq_self_head? {p : Char → Bool} {xs : Str}
    (h : ∀ c, xs.head? = some c → p c = false) : xs.dropWhile p = xs := by
  cases xs with
  | nil => rfl
  | cons a l =>
    rw [List.dropWhile_cons, h a rfl]
    simp

theorem getLast?_dropWhile {p : Char → Bool} :
    ∀ {xs : Str}, xs.dropWhile p ≠ [] → (xs.dropWhile p).getLast? = xs.getLast? := by
  intro xs
  induction xs with
  | nil => intro h; exact absurd rfl h
  | cons a l ih =>
    intro h
    rw [List.dropWhile_cons] at h ⊢
    by_cases ha : p a = true
    · rw [if_pos ha] at h ⊢
      have hlne : l ≠ [] := by
        intro e
        rw [e] at h
        exact h rfl
      rw [ih h]
      cases hl : l with
      | nil => exact absurd hl hlne
      | cons b l2 => simp [List.getLast?_cons_cons]
    · rw [if_neg ha]

theorem dropWhile_idem {p : Char → Bool} (xs : Str) :
    (xs.dropWhile p).dropWhile p = xs.dropWhile p := by
  apply dropWhile_eq_self_head?
  intro c hc
  cases hd : xs.dropWhile p with
  | nil => rw [hd] at hc; cases hc
  | cons b rest =>
    rw [hd] at hc
    injection hc with e
    subst e
    exact dropWhile_head_false hd

theorem trimCh_idem (cs : Str) : trimCh (trimCh cs) = trimCh cs := by
  unfold trimCh
  have hinner : ((((cs.dropWhile isWS).reverse.dropWhile isWS).reverse).dropWhile isWS)
      = ((cs.dropWhile isWS).reverse.dropWhile isWS).reverse := by
    apply dropWhile_eq_self_head?
    intro c hc
    rw [List.head?_reverse] at hc
    have hBne : (cs.dropWhile isWS).reverse.dropWhile isWS ≠ [] := by
      intro e
      rw [e] at hc
      cases hc
    rw [getLast?_dropWhile hBne, List.getLast?_reverse] at hc
    cases hA : cs.dropWhile isWS with
    | nil => rw [hA] at hc; cases hc
    | cons a l =>
      rw [hA] at hc
      injection hc with e
      subst e
      exact dropWhile_head_false hA
  rw [hinner, List.reverse_reverse, dropWhile_idem]

theorem parseRecordF_ne_nil :
    ∀ {fuel : Nat} {cs : Str} {r : List Str} {rest : Str},
      parseRecordF fuel cs = some (r, rest) → r ≠ [] := by
  intro fuel
  induction fuel with
  | zero => intro cs r rest h; cases h
  | succ fuel ih =>
    intro cs r rest h
    conv at h => lhs; unfold parseRecordF
    cases hf : parseField cs with
    | none => rw [hf] at h; cases h
    | some p =>
      rw [hf] at h
      obtain ⟨f, rest2⟩ := p
      cases rest2 with
      | nil =>
        dsimp only at h
        injection h with h1
        injection h1 with h1 _
        rw [← h1]
        simp
      | cons c cs2 =>
        dsimp only at h
        by_cases hnl : c = nlCh
        · rw [if_pos hnl] at h
          injection h with h1
          injection h1 with h1 _
          rw [← h1]
          simp
        · rw [if_neg hnl] at h
          by_cases hcm : c = commaCh
          · rw [if_pos hcm] at h
            cases hrec : parseRecordF fuel cs2 with
            | none => rw [hrec] at h; cases h
            | some p2 =>
              rw [hrec] at h
              obtain ⟨r2, rest3⟩ := p2
              injection h with h1
              injection h1 with h2 _
              rw [← h2]
              simp
          · rw [if_neg hcm] at h
            cases h

theorem parseDocF_rows_ne_nil :
    ∀ {fuel : Nat} {cs : Str} {l : List (List Str)},
      parseDocF fuel cs = some l → ∀ r ∈ l, r ≠ [] := by
  intro fuel
  induction fuel with
  | zero =>
    intro cs l h
    cases cs with
    | nil =>
      injection h with h
      rw [← h]
      intro r hr
      cases hr
    | cons c cs2 => cases h
  | succ fuel ih =>
    intro cs l h
    cases cs with
    | nil =>
      injection h with h
      rw [← h]
      intro r hr
      cases hr
    | cons c cs2 =>
      rw [parseDocF_ne fuel (by simp)] at h
      cases hrec : parseRecordF ((c :: cs2).length + 1) (c :: cs2) with
      | none => rw [hrec] at h; cases h
      | some p =>
        rw [hrec] at h
        obtain ⟨r0, rest⟩ := p
        dsimp only at h
        cases hdoc : parseDocF fuel rest with
        | none => rw [hdoc] at h; cases h
        | some l2 =>
          rw [hdoc] at h
          injection h with h
          rw [← h]
          intro r hr
          rcases List.mem_cons.mp hr with rfl | hr2
          · exact parseRecordF_ne_nil hrec
          · exact ih hdoc r hr2

theorem readRecords_ne_nil {cs : Str} {l : List (List Str)}
    (h : readRecords cs = some l) : ∀ r ∈ l, r ≠ [] := by
  unfold readRecords at h
  cases hdoc : parseDocF (cs.length + 1) cs with
  | none => rw [hdoc] at h; cases h
  | some l2 =>
    rw [hdoc] at h
    injection h with h
    rw [← h]
    intro r hr
    exact parseDocF_rows_ne_nil hdoc r (List.mem_filter.mp hr).1

theorem mangleGo_length (seen : List Str) :
    ∀ ns : List Str, (mangleGo seen ns).length = ns.length := by
  intro ns
  induction ns generalizing seen with
  | nil => rfl
  | cons nm rest ih =>
    show (_ :: mangleGo _ rest).length = _
    simp [ih]

theorem mangle_length (ns : List Str) : (mangle ns).length = ns.length :=
  mangleGo_length [] ns

theorem mangleGo_nodup_id :
    ∀ (ns seen : List Str), ns.Nodup → (∀ x ∈ ns, ¬ x ∈ seen) →
      mangleGo seen ns = ns := by
  intro ns
  induction ns with
  | nil => intro seen _ _; rfl
  | cons nm rest ih =>
    intro seen hnd hsep
    show (if nm ∈ seen then _ else nm) :: mangleGo _ rest = nm :: rest
    rw [if_neg (hsep nm (List.mem_cons_self nm rest))]
    congr 1
    apply ih _ (List.Nodup.of_cons hnd)
    intro x hx
    rw [List.mem_cons]
    rintro (rfl | hxs)
    · exact (List.nodup_cons.mp hnd).1 hx
    · exact hsep x (List.mem_cons_of_mem nm hx) hxs

theorem mangle_nodup_id {ns : List Str} (h : ns.Nodup) : mangle ns = ns :=
  mangleGo_nodup_id ns [] h (fun x _ hx => (List.not_mem_nil x) hx)

theorem numValOf_den (sgn : Int) (d1 d2 : Str) (es : Int) (d3 : Str) :
    decExp (numValOf sgn d1 d2 es d3).den ≠ none := by
  unfold numValOf
  simp only
  split
  · apply decExp_ne_none_of_dvd (t := 0) (Rat.den_pos _)
    rw [Rat.mkRat_eq_divInt]
    rw [pow_zero]
    exact Int.natCast_dvd_natCast.mp (by exact_mod_cast Rat.den_dvd _ 1)
  · apply decExp_ne_none_of_dvd
      (t := (-(es * (digitsVal d3 : Int) - (d2.length : Int))).toNat)
      (Rat.den_pos _)
    rw [Rat.mkRat_eq_divInt]
    apply Int.natCast_dvd_natCast.mp
    exact_mod_cast Rat.den_dvd _ ((10 : Nat) ^
      (-(es * (digitsVal d3 : Int) - (d2.length : Int))).toNat : Nat)

theorem parseNumCore_den {cs : Str} {q : Rat} (h : parseNumCore cs = some q) :
    decExp q.den ≠ none := by
  unfold parseNumCore at h
  simp only at h
  split at h
  · exact Option.noConfusion h
  · split at h
    · injection h with h1
      rw [← h1]
      exact numValOf_den _ _ _ _ _
    · split at h
      · split at h
        · exact Option.noConfusion h
        · injection h with h1
          rw [← h1]
          exact numValOf_den _ _ _ _ _
      · exact Option.noConfusion h

theorem parseNum_decExp {s : Str} {q : Rat} (h : parseNum s = some q) :
    decExp q.den ≠ none := by
  unfold parseNum at h
  simp only at h
  split at h
  · exact parseNumCore_den h
  · exact Option.noConfusion h

theorem read_csv_col {cs : Str} {t0 : Table} {h0 : List Str} {rs : List (List Str)}
    (h : read_csv cs = Except.ok t0) (hrec : readRecords cs = some (h0 :: rs))
    {j : Nat} (hj : j < h0.length) :
    ∃ b : Bool,
      (∀ i, i < rs.length → (t0.rows.getD i []).getD j Cell.null
        = inferCell b (cellOfRaw ((rs.getD i []).getD j []))) ∧
      (b = false → ∃ i, i < rs.length ∧
        cellNumOk (cellOfRaw ((rs.getD i []).getD j [])) = false) := by
  unfold read_csv at h
  rw [hrec] at h
  simp only at h
  split at h
  · exact Except.noConfusion h
  · injection h with h
    subst h
    refine ⟨(rs.map (fun r => List.map cellOfRaw r ++
      List.replicate (h0.length - r.length) Cell.null)).all
        (fun r => cellNumOk (r.getD j Cell.null)), ?_, ?_⟩
    · intro i hi
      show ((List.map _ (List.map _ rs)).getD i []).getD j Cell.null = _
      rw [getD_map_lt _ (show i < (List.map (fun r => List.map cellOfRaw r ++
        List.replicate (h0.length - r.length) Cell.null) rs).length by
          simpa using hi) [] []]
      rw [range_map_getD _ _ _ _ hj]
      rw [getD_map_lt _ hi [] []]
      rw [padded_getD _ _ _ hj]
    · intro hb
      obtain ⟨x, hx, hpx⟩ := List.all_eq_false.mp hb
      obtain ⟨i, hilen, he⟩ := List.getElem_of_mem hx
      have hilen2 : i < rs.length := by simpa using hilen
      refine ⟨i, hilen2, ?_⟩
      have hri : rs.getD i [] = rs[i] := by
        rw [List.getD_eq_getElem?_getD, List.getElem?_eq_getElem hilen2]
        rfl
      have hx3 : x.getD j Cell.null = cellOfRaw ((rs.getD i []).getD j []) := by
        rw [← he, List.getElem_map, hri]
        exact padded_getD _ _ _ hj
      rw [← hx3]
      simpa using hpx

theorem load_data_col {cs : Str} {T : Table} {h0 : List Str} {rs : List (List Str)}
    (hL : load_data cs = Except.ok T) (hrec : readRecords cs = some (h0 :: rs))
    {j : Nat} (hj : j < h0.length) :
    ∃ b : Bool,
      (∀ i, i < rs.length → (T.rows.getD i []).getD j Cell.null =
        (if colIdx T RYname = some j ∨ colIdx T URname = some j
          then toNumericCell (inferCell b (cellOfRaw ((rs.getD i []).getD j [])))
          else inferCell b (cellOfRaw ((rs.getD i []).getD j [])))) ∧
      (b = false → ∃ i, i < rs.length ∧
        cellNumOk (cellOfRaw ((rs.getD i []).getD j [])) = false) := by
  obtain ⟨t0, hR, hT⟩ := load_data_ok_parts hL
  obtain ⟨b, hball, hbfalse⟩ := read_csv_col hR hrec hj
  obtain ⟨h0b, rsb, hrecb, hhdr, g, hrows, hglen⟩ := read_csv_ok_shape hR
  rw [hrec] at hrecb
  injection hrecb with hrecb
  injection hrecb with e1 e2
  subst e1
  subst e2
  have hH1 : (stripHeader t0).rows = t0.rows := rfl
  have hHT : T.header = (stripHeader t0).header := by
    rw [hT, to_numeric_col_header, to_numeric_col_header]
  have hcolRY : colIdx T RYname = colIdx (stripHeader t0) RYname := by
    unfold colIdx
    rw [hHT]
  have hcolUR : colIdx T URname = colIdx (stripHeader t0) URname := by
    unfold colIdx
    rw [hHT]
  refine ⟨b, ?_, hbfalse⟩
  intro i hi
  have hlen1 : i < (stripHeader t0).rows.length := by
    rw [hH1, hrows]
    simpa using hi
  have hrowlen1 : ((stripHeader t0).rows.getD i []).length = h0.length := by
    rw [hH1, hrows, getD_map_lt _ (by simpa using hi) [] []]
    exact hglen _
  have hb2 : ((stripHeader t0).rows.getD i []).getD j Cell.null
      = inferCell b (cellOfRaw ((rs.getD i []).getD j [])) := hball i hi
  rw [hcolRY, hcolUR]
  cases hJ1 : colIdx (stripHeader t0) RYname with
  | none =>
    rw [hT, to_numeric_col_eq_none hJ1]
    cases hJ2 : colIdx (stripHeader t0) URname with
    | none =>
      rw [to_numeric_col_eq_none hJ2]
      rw [if_neg (by simp)]
      exact hb2
    | some ju =>
      rw [to_numeric_col_eq_some hJ2]
      rw [setCol_getD hlen1]
      by_cases hju : ju = j
      · subst hju
        rw [if_pos ⟨rfl, by rw [hrowlen1]; exact hj⟩, if_pos (Or.inr rfl), hb2]
      · rw [if_neg (fun hand => hju hand.1),
          if_neg (by
            intro hor
            cases hor with
            | inl hx => exact Option.noConfusion hx
            | inr hx => exact hju (Option.some.inj hx)), hb2]
  | some jr =>
    rw [hT, to_numeric_col_eq_some hJ1]
    have hJ2b : ∀ o, colIdx (stripHeader t0) URname = o →
        colIdx (setCol (stripHeader t0) jr toNumericCell) URname = o := by
      intro o ho
      rw [colIdx_setCol]
      exact ho
    cases hJ2 : colIdx (stripHeader t0) URname with
    | none =>
      rw [to_numeric_col_eq_none (hJ2b none hJ2)]
      rw [setCol_getD hlen1]
      by_cases hjr : jr = j
      · subst hjr
        rw [if_pos ⟨rfl, by rw [hrowlen1]; exact hj⟩, if_pos (Or.inl rfl), hb2]
      · rw [if_neg (fun hand => hjr hand.1),
          if_neg (by
            intro hor
            cases hor with
            | inl hx => exact hjr (Option.some.inj hx)
            | inr hx => exact Option.noConfusion hx), hb2]
    | some ju =>
      have hjrju : jr ≠ ju := by
        intro e
        subst e
        exact colIdx_ne_both (t := stripHeader t0) hJ1 hJ2
      rw [to_numeric_col_eq_some (hJ2b (some ju) hJ2)]
      have hlen2 : i < (setCol (stripHeader t0) jr toNumericCell).rows.length := by
        rw [setCol_rows_length]
        exact hlen1
      rw [setCol_getD hlen2]
      by_cases hju : ju = j
      · subst hju
        rw [if_pos ⟨rfl, by rw [setCol_row_length hlen1, hrowlen1]; exact hj⟩]
        rw [setCol_getD hlen1]
        rw [if_neg (fun hand => hjrju (by omega))]
        rw [if_pos (Or.inr rfl), hb2]
      · rw [if_neg (fun hand => hju hand.1)]
        rw [setCol_getD hlen1]
        by_cases hjr : jr = j
        · subst hjr
          rw [if_pos ⟨rfl, by rw [hrowlen1]; exact hj⟩, if_pos (Or.inl rfl), hb2]
        · rw [if_neg (fun hand => hjr hand.1),
            if_neg (by
              intro hor
              cases hor with
              | inl hx => exact hjr (Option.some.inj hx)
              | inr hx => exact hju (Option.some.inj hx)), hb2]

theorem to_numeric_col_rows_length (t : Table) (nm : Str) :
    (to_numeric_col t nm).rows.length = t.rows.length := by
  unfold to_numeric_col
  split
  · rfl
  · exact setCol_rows_length _ _ _

theorem to_numeric_col_row_length {t : Table} (nm : Str) {i : Nat}
    (hi : i < t.rows.length) :
    ((to_numeric_col t nm).rows.getD i []).length = (t.rows.getD i []).length := by
  unfold to_numeric_col
  split
  · rfl
  · exact setCol_row_length hi

theorem load_data_dims {cs : Str} {T : Table} {h0 : List Str} {rs : List (List Str)}
    (hL : load_data cs = Except.ok T) (hrec : readRecords cs = some (h0 :: rs)) :
    T.header.length = h0.length ∧ T.rows.length = rs.length ∧
      ∀ i, i < rs.length → (T.rows.getD i []).length = h0.length := by
  obtain ⟨t0, hR, hT⟩ := load_data_ok_parts hL
  obtain ⟨h0b, rsb, hrecb, hhdr, g, hrows, hglen⟩ := read_csv_ok_shape hR
  rw [hrec] at hrecb
  injection hrecb with hrecb
  injection hrecb with e1 e2
  subst e1
  subst e2
  have hi1 : ∀ i, i < rs.length → i < (stripHeader t0).rows.length := by
    intro i hi
    show i < t0.rows.length
    rw [hrows]
    simpa using hi
  refine ⟨?_, ?_, ?_⟩
  · rw [hT, to_numeric_col_header, to_numeric_col_header]
    show (t0.header.map trimCh).length = h0.length
    rw [hhdr]
    simp [mangle_length]
  · rw [hT, to_numeric_col_rows_length, to_numeric_col_rows_length]
    show t0.rows.length = rs.length
    rw [hrows]
    simp
  · intro i hi
    have hi2 : i < (to_numeric_col (stripHeader t0) RYname).rows.length := by
      rw [to_numeric_col_rows_length]
      exact hi1 i hi
    rw [hT, to_numeric_col_row_length _ hi2, to_numeric_col_row_length _ (hi1 i hi)]
    show ((t0.rows).getD i []).length = h0.length
    rw [hrows, getD_map_lt _ (by simpa using hi) [] []]
    exact hglen _

theorem trimCh_fixed_of_load {cs : Str} {T : Table}
    (hL : load_data cs = Except.ok T) : ∀ s ∈ T.header, trimCh s = s := by
  obtain ⟨h0, rs, hrec, hhdr, _⟩ := load_data_shape hL
  intro s hs
  rw [hhdr] at hs
  obtain ⟨x, _, hx⟩ := List.mem_map.mp hs
  rw [← hx]
  exact trimCh_idem x

theorem readRecords_ne_blank {cs : Str} {l : List (List Str)}
    (h : readRecords cs = some l) : ∀ r ∈ l, r ≠ [[]] := by
  unfold readRecords at h
  cases hdoc : parseDocF (cs.length + 1) cs with
  | none => rw [hdoc] at h; cases h
  | some l2 =>
    rw [hdoc] at h
    injection h with h
    rw [← h]
    intro r hr
    exact of_decide_eq_true (List.mem_filter.mp hr).2

theorem parseNum_naStrings : ∀ s ∈ naStrings, parseNum s = none := by decide

theorem cellOfRaw_of_parseNum {s : Str} {q : Rat} (h : parseNum s = some q) :
    cellOfRaw s = Cell.str s := by
  unfold cellOfRaw
  rw [if_neg]
  intro hmem
  rw [parseNum_naStrings s hmem] at h
  exact Option.noConfusion h

theorem toNumericCell_ne_str (c : Cell) (s : Str) : toNumericCell c ≠ Cell.str s := by
  cases c with
  | null => exact fun h => Cell.noConfusion h
  | num q => exact fun h => Cell.noConfusion h
  | str s2 =>
    show (match parseNum s2 with
      | some q => Cell.num q
      | none => Cell.null) ≠ Cell.str s
    cases hp : parseNum s2 with
    | none => exact fun h => Cell.noConfusion h
    | some q => exact fun h => Cell.noConfusion h

theorem inferCellTrue_ne_str (raw : Str) (s : Str) :
    inferCell true (cellOfRaw raw) ≠ Cell.str s := by
  unfold cellOfRaw
  split
  · exact fun h => Cell.noConfusion h
  · show (match parseNum raw with
      | some q => Cell.num q
      | none => Cell.null) ≠ Cell.str s
    cases hp : parseNum raw with
    | none => exact fun h => Cell.noConfusion h
    | some q => exact fun h => Cell.noConfusion h

theorem cellOfRaw_ne_num (s : Str) (q : Rat) : cellOfRaw s ≠ Cell.num q := by
  unfold cellOfRaw
  split
  · exact fun h => Cell.noConfusion h
  · exact fun h => Cell.noConfusion h

theorem inferCell_null (b : Bool) : inferCell b Cell.null = Cell.null := by
  cases b with
  | false => rfl
  | true => rfl

theorem inferCellTrue_str_eq {s : Str} {q : Rat} (hp : parseNum s = some q) :
    inferCell true (Cell.str s) = Cell.num q := by
  show (match parseNum s with
    | some q => Cell.num q
    | none => Cell.null) = Cell.num q
  rw [hp]

theorem cellNumOk_false {c : Cell} (h : cellNumOk c = false) :
    ∃ s, c = Cell.str s ∧ parseNum s = none := by
  cases c with
  | null => exact Bool.noConfusion h
  | num q => exact Bool.noConfusion h
  | str s =>
    refine ⟨s, rfl, ?_⟩
    cases hp : parseNum s with
    | none => rfl
    | some q =>
      rw [show cellNumOk (Cell.str s) = (parseNum s).isSome from rfl, hp] at h
      exact Bool.noConfusion h

theorem cellClean_infer (b : Bool) (raw : Str) :
    cellClean (inferCell b (cellOfRaw raw)) = true := by
  unfold cellOfRaw
  split
  · rw [inferCell_null]
    rfl
  next hna =>
    cases b with
    | false => exact decide_eq_true hna
    | true =>
      show cellClean (match parseNum raw with
        | some q => Cell.num q
        | none => Cell.null) = true
      cases hp : parseNum raw with
      | none => rfl
      | some q =>
        show (decExp q.den).isSome = true
        exact Option.isSome_iff_ne_none.mpr (parseNum_decExp hp)

theorem cellClean_toNum {c : Cell} (h : cellClean c = true) :
    cellClean (toNumericCell c) = true := by
  cases c with
  | null => rfl
  | num q => exact h
  | str s =>
    show cellClean (match parseNum s with
      | some q => Cell.num q
      | none => Cell.null) = true
    cases hp : parseNum s with
    | none => rfl
    | some q =>
      show (decExp q.den).isSome = true
      exact Option.isSome_iff_ne_none.mpr (parseNum_decExp hp)

theorem load_data_clean {cs : Str} {T : Table} {h0 : List Str} {rs : List (List Str)}
    (hL : load_data cs = Except.ok T) (hrec : readRecords cs = some (h0 :: rs)) :
    ∀ i, i < rs.length → ∀ j, j < h0.length →
      cellClean ((T.rows.getD i []).getD j Cell.null) = true := by
  intro i hi j hj
  obtain ⟨b, hcell, _⟩ := load_data_col hL hrec hj
  rw [hcell i hi]
  split
  · exact cellClean_toNum (cellClean_infer b _)
  · exact cellClean_infer b _

theorem load_data_dichotomy {cs : Str} {T : Table} {h0 : List Str}
    {rs : List (List Str)} (hL : load_data cs = Except.ok T)
    (hrec : readRecords cs = some (h0 :: rs)) {j : Nat} (hj : j < h0.length) :
    (∀ i, i < rs.length → ∀ s, (T.rows.getD i []).getD j Cell.null ≠ Cell.str s)
    ∨ ((∀ i, i < rs.length → ∀ q, (T.rows.getD i []).getD j Cell.null ≠ Cell.num q) ∧
       ∃ i, i < rs.length ∧ ∃ s,
         (T.rows.getD i []).getD j Cell.null = Cell.str s ∧ parseNum s = none) := by
  obtain ⟨b, hcell, hblock⟩ := load_data_col hL hrec hj
  by_cases hcond : colIdx T RYname = some j ∨ colIdx T URname = some j
  · left
    intro i hi s
    rw [hcell i hi, if_pos hcond]
    exact toNumericCell_ne_str _ s
  · cases b with
    | true =>
      left
      intro i hi s
      rw [hcell i hi, if_neg hcond]
      exact inferCellTrue_ne_str _ s
    | false =>
      right
      obtain ⟨i0, hi0, hnum⟩ := hblock rfl
      obtain ⟨s0, he0, hpn0⟩ := cellNumOk_false hnum
      constructor
      · intro i hi q
        rw [hcell i hi, if_neg hcond]
        exact cellOfRaw_ne_num _ q
      · refine ⟨i0, hi0, s0, ?_, hpn0⟩
        rw [hcell i0 hi0, if_neg hcond]
        exact he0

theorem getD_set_ne {α : Type} (l : List α) (jc j : Nat) (v d : α) (h : jc ≠ j) :
    (l.set jc v).getD j d = l.getD j d := by
  rw [List.getD_eq_getElem?_getD, List.getElem?_set, if_neg h,
    ← List.getD_eq_getElem?_getD]

theorem set_getD_self : ∀ (l : List Cell) (j : Nat),
    l.set j (l.getD j Cell.null) = l := by
  intro l
  induction l with
  | nil => intro j; rfl
  | cons a l ih =>
    intro j
    cases j with
    | zero => rfl
    | succ j =>
      show a :: l.set j (l.getD j Cell.null) = a :: l
      rw [ih j]

theorem map_fixed_id {α : Type} : ∀ {l : List α} {f : α → α},
    (∀ x ∈ l, f x = x) → l.map f = l := by
  intro l
  induction l with
  | nil => intro f _; rfl
  | cons a l ih =>
    intro f h
    show f a :: l.map f = a :: l
    rw [h a (List.mem_cons_self a l), ih (fun x hx => h x (List.mem_cons_of_mem a hx))]

theorem to_numeric_col_id {t : Table} (nm : Str)
    (h : ∀ j, colIdx t nm = some j → ∀ i, i < t.rows.length →
      ∀ s, (t.rows.getD i []).getD j Cell.null ≠ Cell.str s) :
    to_numeric_col t nm = t := by
  unfold to_numeric_col
  cases hc : colIdx t nm with
  | none => rfl
  | some j =>
    show setCol t j toNumericCell = t
    unfold setCol
    have hmap : t.rows.map (fun r => r.set j (toNumericCell (r.getD j Cell.null)))
        = t.rows := by
      apply map_fixed_id
      intro r hr
      obtain ⟨i, hi, he⟩ := List.getElem_of_mem hr
      have hgd : r.getD j Cell.null = (t.rows.getD i []).getD j Cell.null := by
        rw [List.getD_eq_getElem _ _ hi, he]
      have hzz : toNumericCell (r.getD j Cell.null) = r.getD j Cell.null := by
        rw [hgd]
        cases hcell : (t.rows.getD i []).getD j Cell.null with
        | null => rfl
        | num q => rfl
        | str s => exact absurd hcell (h j hc i hi s)
      rw [hzz, set_getD_self]
    rw [hmap]

theorem load_data_intOk {cs : Str} {T : Table} (hL : load_data cs = Except.ok T)
    {jy : Nat} (hjy : colIdx T RYname = some jy) :
    T.rows.all (fun r => cellIntOk (r.getD jy Cell.null)) = true := by
  unfold load_data at hL
  cases hR : read_csv cs with
  | error e => rw [hR] at hL; exact Except.noConfusion hL
  | ok t0 =>
    rw [hR] at hL
    simp only at hL
    cases hA : astype_Int64 (to_numeric_col (stripHeader t0) RYname) RYname with
    | error e => rw [hA] at hL; exact Except.noConfusion hL
    | ok t3 =>
      rw [hA] at hL
      simp only at hL
      injection hL with hL
      have ht3 : t3 = to_numeric_col (stripHeader t0) RYname := astype_ok_eq hA
      have hcol2 : colIdx (to_numeric_col (stripHeader t0) RYname) RYname
          = some jy := by
        have hcolT : colIdx t3 RYname = colIdx T RYname := by
          rw [← hL]
          unfold colIdx
          rw [to_numeric_col_header]
        rw [← ht3, hcolT, hjy]
      unfold astype_Int64 at hA
      rw [hcol2] at hA
      dsimp only at hA
      by_cases hall : (to_numeric_col (stripHeader t0) RYname).rows.all
          (fun r => cellIntOk (r.getD jy Cell.null)) = true
      · cases hU : colIdx (to_numeric_col (stripHeader t0) RYname) URname with
        | none =>
          rw [← hL, ht3, to_numeric_col_eq_none hU]
          exact hall
        | some ju =>
          have hne : ju ≠ jy := by
            intro e
            subst e
            exact colIdx_ne_both hcol2 hU
          rw [← hL, ht3, to_numeric_col_eq_some hU]
          show ((to_numeric_col (stripHeader t0) RYname).rows.map
            (fun r => r.set ju (toNumericCell (r.getD ju Cell.null)))).all _ = true
          apply List.all_eq_true.mpr
          intro x hx
          obtain ⟨r, hr, hrx⟩ := List.mem_map.mp hx
          rw [← hrx]
          show cellIntOk ((r.set ju (toNumericCell (r.getD ju Cell.null))).getD jy
            Cell.null) = true
          rw [getD_set_ne _ _ _ _ _ hne]
          exact List.all_eq_true.mp hall r hr
      · rw [if_neg hall] at hA
        exact Except.noConfusion hA

theorem read_csv_eq {cs : Str} {h : List Str} {rs : List (List Str)}
    (hrec : readRecords cs = some (h :: rs))
    (hnl : rs.any (fun r => h.length < r.length) = false) :
    read_csv cs = Except.ok (Table.mk (mangle h)
      ((rs.map (fun r => r.map cellOfRaw ++
          List.replicate (h.length - r.length) Cell.null)).map
        (fun r => (List.range h.length).map
          (fun j => inferCell
            ((rs.map (fun r => r.map cellOfRaw ++
                List.replicate (h.length - r.length) Cell.null)).all
              (fun r => cellNumOk (r.getD j Cell.null)))
            (r.getD j Cell.null))))) := by
  unfold read_csv
  rw [hrec]
  dsimp only
  rw [if_neg (by rw [hnl]; exact Bool.false_ne_true)]

theorem rows_reconstruct_aux (n : Nat) (L RR : List (List Cell))
    (hRR : RR = (L.map (List.map cellToStr)).map
      (fun r => r.map cellOfRaw ++ List.replicate (n - r.length) Cell.null))
    (hlen : ∀ i, i < L.length → (L.getD i []).length = n)
    (hclean : ∀ i, i < L.length → ∀ j, j < n →
      cellClean ((L.getD i []).getD j Cell.null) = true)
    (hcol : ∀ j, j < n →
      (∀ i, i < L.length → ∀ s, (L.getD i []).getD j Cell.null ≠ Cell.str s)
      ∨ ((∀ i, i < L.length → ∀ q, (L.getD i []).getD j Cell.null ≠ Cell.num q) ∧
         ∃ i, i < L.length ∧ ∃ s,
           (L.getD i []).getD j Cell.null = Cell.str s ∧ parseNum s = none)) :
    RR.map (fun r => (List.range n).map
      (fun j => inferCell (RR.all (fun r => cellNumOk (r.getD j Cell.null)))
        (r.getD j Cell.null))) = L := by
  have hRRlen : RR.length = L.length := by
    rw [hRR]
    simp
  have hRRget : ∀ i, i < L.length → ∀ j, j < n →
      (RR.getD i []).getD j Cell.null
        = cellOfRaw (cellToStr ((L.getD i []).getD j Cell.null)) := by
    intro i hi j hj
    rw [hRR]
    rw [getD_map_lt _ (show i < (L.map (List.map cellToStr)).length by
      simpa using hi) [] []]
    rw [getD_map_lt _ hi [] []]
    rw [padded_getD _ _ _ hj]
    congr 1
    exact getD_map_lt cellToStr (by rw [hlen i hi]; exact hj) Cell.null []
  have hball : ∀ j, j < n →
      (∀ i, i < L.length → ∀ s, (L.getD i []).getD j Cell.null ≠ Cell.str s) →
      RR.all (fun r => cellNumOk (r.getD j Cell.null)) = true := by
    intro j hj hns
    apply List.all_eq_true.mpr
    intro x hx
    obtain ⟨i, hiR, he⟩ := List.getElem_of_mem hx
    have hi : i < L.length := by rw [← hRRlen]; exact hiR
    show cellNumOk (x.getD j Cell.null) = true
    have hxg : x.getD j Cell.null
        = cellOfRaw (cellToStr ((L.getD i []).getD j Cell.null)) := by
      rw [← he, ← List.getD_eq_getElem _ [] hiR]
      exact hRRget i hi j hj
    rw [hxg]
    cases hcell : (L.getD i []).getD j Cell.null with
    | null => rfl
    | num q =>
      have hcl := hclean i hi j hj
      rw [hcell] at hcl
      have hp : parseNum (ratToStr q) = some q :=
        parseNum_ratToStr q (Option.isSome_iff_ne_none.mp hcl)
      show cellNumOk (cellOfRaw (ratToStr q)) = true
      rw [cellOfRaw_of_parseNum hp]
      show (parseNum (ratToStr q)).isSome = true
      rw [hp]
      rfl
    | str s => exact absurd hcell (hns i hi s)
  have hbfalse : ∀ j, j < n →
      (∃ i, i < L.length ∧ ∃ s,
        (L.getD i []).getD j Cell.null = Cell.str s ∧ parseNum s = none) →
      RR.all (fun r => cellNumOk (r.getD j Cell.null)) = false := by
    intro j hj hex
    obtain ⟨i0, hi0, s0, hc0, hp0⟩ := hex
    apply List.all_eq_false.mpr
    have hi0R : i0 < RR.length := by rw [hRRlen]; exact hi0
    refine ⟨RR.getD i0 [], ?_, ?_⟩
    · rw [List.getD_eq_getElem _ [] hi0R]
      exact List.getElem_mem _
    · show ¬ cellNumOk ((RR.getD i0 []).getD j Cell.null) = true
      rw [hRRget i0 hi0 j hj, hc0]
      have hcl := hclean i0 hi0 j hj
      rw [hc0] at hcl
      have hna : ¬ s0 ∈ naStrings := of_decide_eq_true hcl
      show ¬ cellNumOk (cellOfRaw s0) = true
      rw [show cellOfRaw s0 = Cell.str s0 from by unfold cellOfRaw; rw [if_neg hna]]
      show ¬ (parseNum s0).isSome = true
      rw [hp0]
      exact fun hcontra => Bool.noConfusion hcontra
  apply List.ext_getElem
  · rw [List.length_map]
    exact hRRlen
  · intro i h1 h2
    rw [List.getElem_map]
    apply List.ext_getElem
    · rw [List.length_map, List.length_range, ← List.getD_eq_getElem L [] h2]
      exact (hlen i h2).symm
    · intro j hj1 hj2
      have hjn : j < n := by simpa using hj1
      rw [List.getElem_map, List.getElem_range]
      have hiR : i < RR.length := by rw [hRRlen]; exact h2
      have hcellEq : RR[i].getD j Cell.null
          = cellOfRaw (cellToStr ((L.getD i []).getD j Cell.null)) := by
        rw [← List.getD_eq_getElem RR [] hiR]
        exact hRRget i h2 j hjn
      rw [hcellEq]
      rw [show L[i][j] = (L.getD i []).getD j Cell.null from by
        rw [List.getD_eq_getElem L [] h2, List.getD_eq_getElem _ _ hj2]]
      rcases hcol j hjn with hns | ⟨hnn, hex⟩
      · rw [hball j hjn hns]
        cases hcell : (L.getD i []).getD j Cell.null with
        | null => rfl
        | str s => exact absurd hcell (hns i h2 s)
        | num q =>
          have hcl := hclean i h2 j hjn
          rw [hcell] at hcl
          have hp : parseNum (ratToStr q) = some q :=
            parseNum_ratToStr q (Option.isSome_iff_ne_none.mp hcl)
          show inferCell true (cellOfRaw (ratToStr q)) = Cell.num q
          rw [cellOfRaw_of_parseNum hp]
          exact inferCellTrue_str_eq hp
      · rw [hbfalse j hjn hex]
        cases hcell : (L.getD i []).getD j Cell.null with
        | null => rfl
        | num q => exact absurd hcell (hnn i h2 q)
        | str s =>
          have hcl := hclean i h2 j hjn
          rw [hcell] at hcl
          have hna : ¬ s ∈ naStrings := of_decide_eq_true hcl
          show cellOfRaw s = Cell.str s
          unfold cellOfRaw
          rw [if_neg hna]

/-- C9 counterexample: cleaning is not idempotent under serialization at
a concrete input. The unparseable cell of the numeric-inferred single
column becomes null, `to_csv` prints the null row as a blank line, and
the re-parse skips blank lines, so the re-cleaned table has lost the
row. -/
theorem claim_C9_counterexample :
    load_data ("Release Year\nabc\n").data =
      Except.ok (Table.mk ["Release Year".data] [[Cell.null]]) ∧
    load_data (to_csv (Table.mk ["Release Year".data] [[Cell.null]])) =
      Except.ok (Table.mk ["Release Year".data] []) ∧
    Table.mk ["Release Year".data] ([] : List (List Cell)) ≠
      Table.mk ["Release Year".data] [[Cell.null]] :=
  ⟨by decide, by decide, by decide⟩

/-- C9 amended: serializing a cleaned table with `to_csv` and cleaning
again reproduces it exactly, provided the cleaned header has no
duplicate labels (header mangling would otherwise rename them) and no
line of the serialization is blank (a blank line is skipped by the
re-parse, as the counterexample shows). -/
theorem claim_C9 {cs : Str} {T : Table} (hL : load_data cs = Except.ok T)
    (hnd : T.header.Nodup)
    (hnb : ∀ l ∈ T.header :: T.rows.map (List.map cellToStr), l ≠ [[]]) :
    load_data (to_csv T) = Except.ok T := by
  obtain ⟨h0, rs, hrec, hhdr, g, hrows⟩ := load_data_shape hL
  obtain ⟨hlenH, hlenR, hlenRow⟩ := load_data_dims hL hrec
  have hHpos : 0 < T.header.length := by
    rw [hlenH]
    exact List.length_pos.mpr (readRecords_ne_nil hrec h0 (List.mem_cons_self h0 rs))
  have hrowlen2 : ∀ r ∈ T.rows, r.length = T.header.length := by
    intro r hr
    obtain ⟨i, hi, he⟩ := List.getElem_of_mem hr
    have hi2 : i < rs.length := by rw [← hlenR]; exact hi
    have hx := hlenRow i hi2
    rw [List.getD_eq_getElem _ [] hi, he] at hx
    rw [hx]
    exact hlenH.symm
  have hread : readRecords (to_csv T)
      = some (T.header :: T.rows.map (List.map cellToStr)) := by
    show readRecords (renderLines (T.header :: T.rows.map (List.map cellToStr)))
      = some (T.header :: T.rows.map (List.map cellToStr))
    apply readRecords_renderLines
    · intro r hr
      rcases List.mem_cons.mp hr with rfl | hr2
      · intro e
        rw [e] at hHpos
        exact Nat.lt_irrefl 0 hHpos
      · obtain ⟨r0, hr0, hre⟩ := List.mem_map.mp hr2
        intro e
        have hl : r.length = T.header.length := by
          rw [← hre, List.length_map]
          exact hrowlen2 r0 hr0
        rw [e] at hl
        rw [← hl] at hHpos
        exact Nat.lt_irrefl _ hHpos
    · exact hnb
  have hnl : (T.rows.map (List.map cellToStr)).any
      (fun r => T.header.length < r.length) = false := by
    apply List.any_eq_false.mpr
    intro x hx
    obtain ⟨r0, hr0, hre⟩ := List.mem_map.mp hx
    have hxl : x.length = T.header.length := by
      rw [← hre, List.length_map]
      exact hrowlen2 r0 hr0
    simp [hxl]
  have hlen2 : ∀ i, i < T.rows.length →
      (T.rows.getD i []).length = T.header.length := by
    intro i hi
    rw [hlenH]
    exact hlenRow i (by rw [← hlenR]; exact hi)
  have hclean2 : ∀ i, i < T.rows.length → ∀ j, j < T.header.length →
      cellClean ((T.rows.getD i []).getD j Cell.null) = true := by
    intro i hi j hj
    exact load_data_clean hL hrec i (by rw [← hlenR]; exact hi) j
      (by rw [← hlenH]; exact hj)
  have hcol2 : ∀ j, j < T.header.length →
      (∀ i, i < T.rows.length → ∀ s,
        (T.rows.getD i []).getD j Cell.null ≠ Cell.str s)
      ∨ ((∀ i, i < T.rows.length → ∀ q,
          (T.rows.getD i []).getD j Cell.null ≠ Cell.num q) ∧
         ∃ i, i < T.rows.length ∧ ∃ s,
           (T.rows.getD i []).getD j Cell.null = Cell.str s ∧
             parseNum s = none) := by
    intro j hj
    have hj0 : j < h0.length := by rw [← hlenH]; exact hj
    rcases load_data_dichotomy hL hrec hj0 with hns | ⟨hnn, hex⟩
    · left
      intro i hi s
      exact hns i (by rw [← hlenR]; exact hi) s
    · right
      refine ⟨fun i hi q => hnn i (by rw [← hlenR]; exact hi) q, ?_⟩
      obtain ⟨i0, hi0, s0, hc0, hp0⟩ := hex
      exact ⟨i0, by rw [hlenR]; exact hi0, s0, hc0, hp0⟩
  have hBIG := rows_reconstruct_aux T.header.length T.rows
    ((T.rows.map (List.map cellToStr)).map
      (fun r => r.map cellOfRaw ++
        List.replicate (T.header.length - r.length) Cell.null))
    rfl hlen2 hclean2 hcol2
  have hRC := read_csv_eq hread hnl
  rw [hBIG, mangle_nodup_id hnd] at hRC
  rw [show Table.mk T.header T.rows = T from rfl] at hRC
  have hstrip : stripHeader T = T := by
    show Table.mk (T.header.map trimCh) T.rows = T
    rw [map_fixed_id (trimCh_fixed_of_load hL)]
  have hnostrRY : ∀ j2, colIdx T RYname = some j2 → ∀ i, i < T.rows.length →
      ∀ s, (T.rows.getD i []).getD j2 Cell.null ≠ Cell.str s := by
    intro j2 hj2 i hi s
    have hjlt : j2 < h0.length := by
      rw [← hlenH]
      exact (colIdxAux_getD hj2).2
    obtain ⟨b, hcell, _⟩ := load_data_col hL hrec hjlt
    rw [hcell i (by rw [← hlenR]; exact hi), if_pos (Or.inl hj2)]
    exact toNumericCell_ne_str _ s
  have hnostrUR : ∀ j2, colIdx T URname = some j2 → ∀ i, i < T.rows.length →
      ∀ s, (T.rows.getD i []).getD j2 Cell.null ≠ Cell.str s := by
    intro j2 hj2 i hi s
    have hjlt : j2 < h0.length := by
      rw [← hlenH]
      exact (colIdxAux_getD hj2).2
    obtain ⟨b, hcell, _⟩ := load_data_col hL hrec hjlt
    rw [hcell i (by rw [← hlenR]; exact hi), if_pos (Or.inr hj2)]
    exact toNumericCell_ne_str _ s
  have hRYid : to_numeric_col T RYname = T := to_numeric_col_id _ hnostrRY
  have hURid : to_numeric_col T URname = T := to_numeric_col_id _ hnostrUR
  have hAok : astype_Int64 T RYname = Except.ok T := by
    unfold astype_Int64
    cases hc : colIdx T RYname with
    | none => rfl
    | some jy =>
      dsimp only
      rw [if_pos (load_data_intOk hL hc)]
  unfold load_data
  rw [hRC]
  dsimp only
  rw [hstrip, hRYid, hAok]
  dsimp only
  rw [hURid]

/-- C9 witness: the amended statement applied at a concrete clean table,
whose round trip through `to_csv` and `load_data` is the identity. -/
theorem claim_C9_witness :
    load_data ("Release Year,Game Name\n2001,Halo\n").data =
      Except.ok (Table.mk ["Release Year".data, "Game Name".data]
        [[Cell.num (mkRat 2001 1), Cell.str "Halo".data]]) ∧
    load_data (to_csv (Table.mk ["Release Year".data, "Game Name".data]
        [[Cell.num (mkRat 2001 1), Cell.str "Halo".data]])) =
      Except.ok (Table.mk ["Release Year".data, "Game Name".data]
        [[Cell.num (mkRat 2001 1), Cell.str "Halo".data]]) :=
  ⟨by decide, @claim_C9 ("Release Year,Game Name\n2001,Halo\n").data
    (Table.mk ["Release Year".data, "Game Name".data]
      [[Cell.num (mkRat 2001 1), Cell.str "Halo".data]])
    (by decide) (by decide) (by decide)⟩
